import Mathlib

/-
Verification of the audio-metadata codec of `dual_audio_tag_manager`.

The repository's codec layer (`dual_audio_tag_manager_v2.py`, with the older
revision `dual_audio_tag_manager.py` kept for comparison) reads and writes a
canonical nine-field tag set and a single embedded front-cover image across
four container formats (MP3/ID3, FLAC, Ogg Vorbis, M4A/MP4).  The Python code
drives the `mutagen` library; here the on-disk containers are embedded
shallowly as explicit state:

  * a tag dictionary is an association list `List (String × List String)`
    (mutagen exposes multi-valued tags as lists of strings);
  * an MP3 file carries an optional ID3 tag holding a frame dictionary plus a
    list of APIC (attached picture) frames; `EasyID3` is the documented view
    of that frame dictionary through canonical key names (title ↦ TIT2, …);
  * a FLAC file carries an optional Vorbis comment (an ordered list of
    (key, value) string pairs whose dictionary view is case-insensitive)
    and a list of picture blocks;
  * an Ogg Vorbis file carries an optional Vorbis comment; its cover lives
    base64-encoded under `METADATA_BLOCK_PICTURE`;
  * an M4A file carries an optional atom dictionary whose values are string
    lists, (track, total) pair lists, or cover atoms;
  * `Content.malformed` stands for a file whose bytes cannot be parsed as its
    extension's container; loading it raises (here: `Except.error`).

Bytes are `Nat` (with value < 256 stated where it matters), strings are Lean
`String`s, and the FLAC picture-block serialization, base64, and UTF-8 are
implemented concretely so that the Ogg cover path is the real encode/decode
composition.  Every operation of the source that can raise returns
`Except String`.
-/

set_option maxRecDepth 4096

deriving instance DecidableEq for Except

namespace DualAudio

/-- A byte string: a list of naturals, each intended to be < 256. -/
abbrev Bytes := List Nat

/-- All entries of a byte string are actual bytes. -/
def bytesOK (b : Bytes) : Prop := ∀ x ∈ b, x < 256

instance (b : Bytes) : Decidable (bytesOK b) := by
  unfold bytesOK; infer_instance

/-! ### Association-list dictionaries

mutagen's tag objects behave as ordered dictionaries from string keys to
values; we embed them as association lists. -/

/-- Dictionary lookup: value of the first entry with the given key. -/
def dGet {α : Type} (d : List (String × α)) (k : String) : Option α :=
  match d with
  | [] => none
  | (k', v) :: rest => if k' = k then some v else dGet rest k

/-- Key membership test (`k in d` in Python). -/
def dHas {α : Type} (d : List (String × α)) (k : String) : Bool :=
  (dGet d k).isSome

/-- Delete every entry with the given key (`del d[k]`; no-op when absent,
matching the source's guarded deletes). -/
def dDel {α : Type} (d : List (String × α)) (k : String) : List (String × α) :=
  match d with
  | [] => []
  | (k', v) :: rest => if k' = k then dDel rest k else (k', v) :: dDel rest k

/-- Assignment `d[k] = v`: drop any old entry for `k`, append the new one. -/
def dSet {α : Type} (d : List (String × α)) (k : String) (v : α) :
    List (String × α) :=
  dDel d k ++ [(k, v)]

@[simp] theorem dGet_nil {α : Type} (k : String) :
    dGet ([] : List (String × α)) k = none := rfl

theorem dGet_cons {α : Type} (k' : String) (v : α) (rest : List (String × α))
    (k : String) :
    dGet ((k', v) :: rest) k = if k' = k then some v else dGet rest k := rfl

@[simp] theorem dGet_dDel_self {α : Type} (d : List (String × α)) (k : String) :
    dGet (dDel d k) k = none := by
  induction d with
  | nil => rfl
  | cons e rest ih =>
    obtain ⟨k', v⟩ := e
    by_cases h : k' = k <;> simp [dDel, h, dGet_cons, ih]

@[simp] theorem dGet_dDel_ne {α : Type} (d : List (String × α)) (k k' : String)
    (h : k ≠ k') : dGet (dDel d k') k = dGet d k := by
  induction d with
  | nil => rfl
  | cons e rest ih =>
    obtain ⟨k0, v⟩ := e
    by_cases h0 : k0 = k'
    · have hk0 : k0 ≠ k := fun hh => h (hh ▸ h0)
      simp [dDel, h0, dGet_cons, hk0, ih, Ne.symm h]
    · by_cases hk : k0 = k <;> simp [dDel, h0, dGet_cons, hk, ih, h]

theorem dGet_append {α : Type} (d e : List (String × α)) (k : String) :
    dGet (d ++ e) k = ((dGet d k).orElse (fun _ => dGet e k)) := by
  induction d with
  | nil => simp
  | cons x rest ih =>
    obtain ⟨k', v⟩ := x
    by_cases h : k' = k <;> simp [dGet_cons, h, ih]

@[simp] theorem dGet_dSet_self {α : Type} (d : List (String × α)) (k : String)
    (v : α) : dGet (dSet d k v) k = some v := by
  simp [dSet, dGet_append, dGet_cons]

@[simp] theorem dGet_dSet_ne {α : Type} (d : List (String × α)) (k k' : String)
    (v : α) (h : k ≠ k') : dGet (dSet d k' v) k = dGet d k := by
  rw [dSet, dGet_append, dGet_dDel_ne d k k' h]
  cases dGet d k <;> simp [dGet_cons, Ne.symm h, Option.orElse]

/-! ### Small Python string helpers -/

/-- Models `safe_str` of the source on an optional mutagen value (a list of
strings): first element, or the empty string. -/
def safe_str : Option (List String) → String
  | none => ""
  | some [] => ""
  | some (x :: _) => x

/-- ASCII lower-casing of one character (`str.lower` restricted to ASCII,
which is all the source ever lower-cases: file extensions and MIME names). -/
def lowerChar (c : Char) : Char :=
  if 'A' ≤ c ∧ c ≤ 'Z' then Char.ofNat (c.toNat + 32) else c

/-- ASCII upper-casing of one character. -/
def upperChar (c : Char) : Char :=
  if 'a' ≤ c ∧ c ≤ 'z' then Char.ofNat (c.toNat - 32) else c

/-- Models `s.lower()`. -/
def lowerStr (s : String) : String := String.mk (s.data.map lowerChar)

/-- Models `s.upper()`. -/
def upperStr (s : String) : String := String.mk (s.data.map upperChar)

/-- Models `s.endswith(t)`. -/
def strEndsWith (s t : String) : Bool := t.data.isSuffixOf s.data

/-- Python whitespace (`Py_UNICODE_ISSPACE`), the exact character set
`str.strip()` removes: tab through carriage return (0x09 to 0x0D), space,
the separators 0x1C to 0x1F, NEL (0x85), NBSP (0xA0), and the Unicode
space characters 0x1680, 0x2000 to 0x200A, 0x2028, 0x2029, 0x202F, 0x205F
and 0x3000. -/
def isSpaceChar (c : Char) : Bool :=
  (0x09 ≤ c.toNat && c.toNat ≤ 0x0D) || c.toNat == 0x20 ||
  (0x1C ≤ c.toNat && c.toNat ≤ 0x1F) || c.toNat == 0x85 || c.toNat == 0xA0 ||
  c.toNat == 0x1680 || (0x2000 ≤ c.toNat && c.toNat ≤ 0x200A) ||
  c.toNat == 0x2028 || c.toNat == 0x2029 || c.toNat == 0x202F ||
  c.toNat == 0x205F || c.toNat == 0x3000

/-- Models `s.strip()`: drop whitespace from both ends. -/
def pyStrip (s : String) : String :=
  String.mk (((s.data.dropWhile isSpaceChar).reverse.dropWhile isSpaceChar).reverse)

/-- Decimal digit value of a character: the Unicode general category `Nd`,
which is what `int()` accepts, over the `Nd` ranges of the Basic
Multilingual Plane (each range holds the digits 0 to 9 consecutively).
Code points outside these ranges are treated as non-digits. -/
def charDecimal (c : Char) : Option Nat :=
  let n := c.toNat
  let starts : List Nat :=
    [0x0030, 0x0660, 0x06F0, 0x07C0, 0x0966, 0x09E6, 0x0A66, 0x0AE6, 0x0B66,
     0x0BE6, 0x0C66, 0x0CE6, 0x0D66, 0x0DE6, 0x0E50, 0x0ED0, 0x0F20, 0x1040,
     0x1090, 0x17E0, 0x1810, 0x1946, 0x19D0, 0x1A80, 0x1A90, 0x1B50, 0x1BB0,
     0x1C40, 0x1C50, 0xA620, 0xA8D0, 0xA900, 0xA9D0, 0xA9F0, 0xAA50, 0xABF0,
     0xFF10]
  match starts.find? (fun lo => lo ≤ n && n ≤ lo + 9) with
  | some lo => some (n - lo)
  | none => none

/-- Characters with the Unicode digit property but no decimal value
(`Numeric_Type=Digit` in the BMP): `str.isdigit()` accepts them but
`int()` raises `ValueError` on them — superscript, subscript, Ethiopic,
circled and full-stop compatibility digits. -/
def charDigitOnly (c : Char) : Bool :=
  let n := c.toNat
  n == 0xB2 || n == 0xB3 || n == 0xB9 ||
  (0x1369 ≤ n && n ≤ 0x1371) || n == 0x19DA || n == 0x2070 ||
  (0x2074 ≤ n && n ≤ 0x2079) || (0x2080 ≤ n && n ≤ 0x2089) ||
  (0x2460 ≤ n && n ≤ 0x2468) || (0x2474 ≤ n && n ≤ 0x247C) ||
  (0x2488 ≤ n && n ≤ 0x2490) || (0x24F5 ≤ n && n ≤ 0x24FD) ||
  (0x2776 ≤ n && n ≤ 0x277E) || (0x2780 ≤ n && n ≤ 0x2788) ||
  (0x278A ≤ n && n ≤ 0x2792)

/-- Models `s.isdigit()`: non-empty and every character has the Unicode
digit property (a decimal digit, or one of the `Digit`-typed code points
above). -/
def pyIsdigit (s : String) : Bool :=
  !s.data.isEmpty && s.data.all (fun c => (charDecimal c).isSome || charDigitOnly c)

/-- Models `int(s)` on a string `isdigit()` accepted: `some` of the decimal
value when every character is a decimal digit, `none` where `int()` raises
`ValueError` (digit-property characters without a decimal value, such as
superscripts). -/
def pyIntOpt (s : String) : Option Nat :=
  if !s.data.isEmpty && s.data.all (fun c => (charDecimal c).isSome) then
    some (s.data.foldl (fun n c => n * 10 + (charDecimal c).getD 0) 0)
  else none

/-! ### Vorbis comments (`mutagen`'s `VCommentDict`)

A Vorbis comment is an ordered list of (key, value) string pairs; the
dictionary view FLAC and Ogg tags expose matches keys case-insensitively:
`__getitem__` collects every value whose key matches the lower-cased
query, `__delitem__` removes every such pair, and `__setitem__` deletes
all case-variants before appending the new pairs.  (Vorbis keys are
printable ASCII, so ASCII lower-casing is `str.lower` here.) -/

/-- The Vorbis comment list underlying a FLAC or Ogg tag object. -/
abbrev VDict := List (String × String)

/-- Case-insensitive key comparison of `VCommentDict`
(`k.lower() == key.lower()`). -/
def vMatch (k target : String) : Bool := lowerStr k == lowerStr target

/-- All values stored under a key, in order (`VCommentDict.__getitem__`
aggregates every case-variant entry). -/
def vGetAll (d : VDict) (k : String) : List String :=
  match d with
  | [] => []
  | (k0, v) :: rest => if vMatch k0 k then v :: vGetAll rest k else vGetAll rest k

/-- Models `d.get(k)` on a `VCommentDict`: the aggregated value list, or
`None` when no entry matches. -/
def vGet (d : VDict) (k : String) : Option (List String) :=
  match vGetAll d k with
  | [] => none
  | v :: rest => some (v :: rest)

/-- Models `k in d` on a `VCommentDict`. -/
def vHas (d : VDict) (k : String) : Bool := !(vGetAll d k).isEmpty

/-- Models `del d[k]` on a `VCommentDict`: drop every case-insensitive
match. -/
def vDel (d : VDict) (k : String) : VDict :=
  match d with
  | [] => []
  | (k0, v) :: rest => if vMatch k0 k then vDel rest k else (k0, v) :: vDel rest k

/-- Models `d[k] = vals` on a `VCommentDict`: delete every case-variant of
the key, then append the new pairs. -/
def vSet (d : VDict) (k : String) (vals : List String) : VDict :=
  vDel d k ++ vals.map (fun v => (k, v))

/-- Models `set_or_del` of the FLAC and Ogg branches on a Vorbis comment:
write `[val]` when the value is non-empty, otherwise delete the key when
present. -/
def setOrDelV (d : VDict) (k v : String) : VDict :=
  if v ≠ "" then vSet d k [v] else (if vHas d k then vDel d k else d)

/-- Apply the Vorbis `set_or_del` for a list of key/value pairs in order. -/
def applyAllV (d : VDict) : List (String × String) → VDict
  | [] => d
  | (k, v) :: rest => applyAllV (setOrDelV d k v) rest

/-! ### Path suffix and format classification -/

/-- Final path component (after the last `/`), as `pathlib` computes it. -/
def lastComp (l : List Char) : List Char :=
  l.foldl (fun acc c => if c = '/' then [] else acc ++ [c]) []

/-- Index of the last `.` in a character list, if any. -/
def rfindDot : List Char → Option Nat
  | [] => none
  | c :: rest =>
    match rfindDot rest with
    | some i => some (i + 1)
    | none => if c = '.' then some 0 else none

/-- Models `Path(p).suffix` as a character list: from the last dot of the final
component, provided that dot is neither the first nor the last character. -/
def pathSuffixChars (p : String) : List Char :=
  let name := lastComp p.data
  match rfindDot name with
  | none => []
  | some i => if 0 < i ∧ i < name.length - 1 then name.drop i else []

/-- Models `Path(p).suffix`. -/
def pathSuffix (p : String) : String := String.mk (pathSuffixChars p)

/-- Models `get_audio_kind` of the source: the lower-cased suffix with leading dots
stripped (`Path(path).suffix.lower().lstrip(".")`). -/
def get_audio_kind (p : String) : String :=
  String.mk (((pathSuffixChars p).map lowerChar).dropWhile (fun c => c == '.'))

/-- The closed container-kind enumeration of the specification. -/
inductive ContainerKind where
  | frameTagged
  | blockComment
  | oggComment
  | atomBox
  | unsupported
deriving DecidableEq, Repr

/-- The spec's `classify`: the container kind an extension dispatches to.
The source keeps the kind as the extension string returned by
`get_audio_kind` and compares it against the four literals at each call
site; this folds those comparisons into the enumeration. -/
def classify (p : String) : ContainerKind :=
  let k := get_audio_kind p
  if k = "mp3" then .frameTagged
  else if k = "flac" then .blockComment
  else if k = "ogg" then .oggComment
  else if k = "m4a" then .atomBox
  else .unsupported

/-! ### Signature sniffer -/

/-- Models `guess_mime_from_bytes` of the source. -/
def guess_mime_from_bytes (data : Bytes) : String :=
  if [0xFF, 0xD8, 0xFF].isPrefixOf data then "image/jpeg"
  else if [0x89, 0x50, 0x4E, 0x47, 0x0D, 0x0A, 0x1A, 0x0A].isPrefixOf data then "image/png"
  else "image/jpeg"

/-! ### UTF-8 (used by the picture-block serialization for mime/desc) -/

/-- UTF-8 encoding of one code point. -/
def utf8Char (n : Nat) : Bytes :=
  if n < 0x80 then [n]
  else if n < 0x800 then [0xC0 + n / 64, 0x80 + n % 64]
  else if n < 0x10000 then [0xE0 + n / 4096, 0x80 + n / 64 % 64, 0x80 + n % 64]
  else [0xF0 + n / 262144, 0x80 + n / 4096 % 64, 0x80 + n / 64 % 64, 0x80 + n % 64]

/-- Models `s.encode("utf-8")`. -/
def utf8Str (s : String) : Bytes :=
  s.data.flatMap (fun c => utf8Char c.toNat)

/-- Decode one UTF-8 sequence: lead byte, remaining bytes; returns the code
point and the rest.  (Lenient on byte values a UTF-8 encoder never produces;
applied only to encoder output in the claims.) -/
def utf8DecOne (b : Nat) (r : Bytes) : Option (Nat × Bytes) :=
  if b < 0x80 then some (b, r)
  else if b < 0xE0 then
    match r with
    | b2 :: r2 => some ((b - 0xC0) * 64 + (b2 - 0x80), r2)
    | [] => none
  else if b < 0xF0 then
    match r with
    | b2 :: b3 :: r3 => some (((b - 0xE0) * 64 + (b2 - 0x80)) * 64 + (b3 - 0x80), r3)
    | _ => none
  else
    match r with
    | b2 :: b3 :: b4 :: r4 =>
        some ((((b - 0xF0) * 64 + (b2 - 0x80)) * 64 + (b3 - 0x80)) * 64 + (b4 - 0x80), r4)
    | _ => none

theorem utf8DecOne_length (b : Nat) (r : Bytes) (n : Nat) (rest : Bytes)
    (h : utf8DecOne b r = some (n, rest)) : rest.length ≤ r.length := by
  unfold utf8DecOne at h
  split at h
  · injection h with h1; cases h1; exact le_refl _
  · split at h
    · split at h
      · injection h with h1; cases h1; simp
      · cases h
    · split at h
      · split at h
        · injection h with h1; cases h1
          simp only [List.length_cons]; omega
        · cases h
      · split at h
        · injection h with h1; cases h1
          simp only [List.length_cons]; omega
        · cases h

/-- UTF-8 decoding to characters, one sequence at a time. -/
def utf8Dec : Bytes → Option (List Char)
  | [] => some []
  | b :: r =>
    match hone : utf8DecOne b r with
    | none => none
    | some (n, rest) =>
        have : rest.length < r.length + 1 :=
          Nat.lt_succ_of_le (utf8DecOne_length b r n rest hone)
        (utf8Dec rest).map (fun l => Char.ofNat n :: l)
termination_by l => l.length

/-- Models `bytes.decode("utf-8")`. -/
def utf8DecStr (b : Bytes) : Option String :=
  (utf8Dec b).map String.mk

/-! ### Big-endian 32-bit integers (`struct.pack(">I", ·)`) -/

/-- Four big-endian bytes of `n` (defined for `n < 2 ^ 32`). -/
def be32 (n : Nat) : Bytes :=
  [n / 2 ^ 24 % 256, n / 2 ^ 16 % 256, n / 2 ^ 8 % 256, n % 256]

/-- Read four big-endian bytes, returning the value and the rest. -/
def rdBe32 : Bytes → Option (Nat × Bytes)
  | a :: b :: c :: d :: r => some (((a * 256 + b) * 256 + c) * 256 + d, r)
  | _ => none

/-- Read a 32-bit length followed by that many bytes. -/
def rdBlk (b : Bytes) : Option (Bytes × Bytes) := do
  let (n, r) ← rdBe32 b
  if n ≤ r.length then some (r.take n, r.drop n) else none

/-! ### Base64 (RFC 4648, as `base64.b64encode`/`b64decode`) -/

/-- The base64 alphabet. -/
def b64chars : List Char :=
  ['A', 'B', 'C', 'D', 'E', 'F', 'G', 'H', 'I', 'J', 'K', 'L', 'M',
   'N', 'O', 'P', 'Q', 'R', 'S', 'T', 'U', 'V', 'W', 'X', 'Y', 'Z',
   'a', 'b', 'c', 'd', 'e', 'f', 'g', 'h', 'i', 'j', 'k', 'l', 'm',
   'n', 'o', 'p', 'q', 'r', 's', 't', 'u', 'v', 'w', 'x', 'y', 'z',
   '0', '1', '2', '3', '4', '5', '6', '7', '8', '9', '+', '/']

/-- Character for a 6-bit group. -/
def b64e (i : Nat) : Char := b64chars.getD i 'A'

/-- 6-bit group for a character, if it is in the alphabet. -/
def b64d (c : Char) : Option Nat :=
  let i := b64chars.findIdx (fun x => x == c)
  if i < 64 then some i else none

/-- Base64-encode a byte string, three bytes to four characters, with
trailing `=` padding. -/
def b64encodeC : Bytes → List Char
  | [] => []
  | [a] => [b64e (a / 4), b64e (a % 4 * 16), '=', '=']
  | [a, b] => [b64e (a / 4), b64e (a % 4 * 16 + b / 16), b64e (b % 16 * 4), '=']
  | a :: b :: c :: r =>
      b64e (a / 4) :: b64e (a % 4 * 16 + b / 16) :: b64e (b % 16 * 4 + c / 64) ::
        b64e (c % 64) :: b64encodeC r

/-- Models `base64.b64encode(data).decode("ascii")`. -/
def b64encodeS (b : Bytes) : String := String.mk (b64encodeC b)

/-- Base64-decode four characters at a time; `none` on a malformed string
(where `base64.b64decode` raises). -/
def b64decodeC : List Char → Option Bytes
  | [] => some []
  | [c1, c2, '=', '='] => do
      let i1 ← b64d c1
      let i2 ← b64d c2
      some [i1 * 4 + i2 / 16]
  | [c1, c2, c3, '='] => do
      let i1 ← b64d c1
      let i2 ← b64d c2
      let i3 ← b64d c3
      some [i1 * 4 + i2 / 16, i2 % 16 * 16 + i3 / 4]
  | c1 :: c2 :: c3 :: c4 :: r => do
      let i1 ← b64d c1
      let i2 ← b64d c2
      let i3 ← b64d c3
      let i4 ← b64d c4
      let rest ← b64decodeC r
      some ((i1 * 4 + i2 / 16) :: (i2 % 16 * 16 + i3 / 4) :: (i3 % 4 * 64 + i4) :: rest)
  | _ => none

/-- Models `base64.b64decode(s)`. -/
def b64decodeS (s : String) : Option Bytes := b64decodeC s.data

/-! ### FLAC picture blocks (`mutagen.flac.Picture`) -/

/-- A FLAC metadata picture block: type, MIME, description, geometry fields,
and the raw image bytes. `mutagen.flac.Picture()` defaults the numeric
fields to 0. -/
structure Pic where
  typ : Nat
  mime : String
  desc : String
  width : Nat
  height : Nat
  depth : Nat
  colors : Nat
  data : Bytes
deriving DecidableEq, Repr

/-- Models `Picture.write()`: the binary picture-block layout
(type, mime length+bytes, desc length+bytes, width, height, depth,
colors, data length+bytes; all lengths 32-bit big-endian). -/
def picWrite (p : Pic) : Bytes :=
  let m := utf8Str p.mime
  let d := utf8Str p.desc
  be32 p.typ ++ be32 m.length ++ m ++ be32 d.length ++ d ++
    be32 p.width ++ be32 p.height ++ be32 p.depth ++ be32 p.colors ++
    be32 p.data.length ++ p.data

/-- Models `Picture(raw)`: parse the binary picture-block layout; `none` where
mutagen raises on truncated input. -/
def picParse (b : Bytes) : Option Pic := do
  let (t, r1) ← rdBe32 b
  let (m, r2) ← rdBlk r1
  let (d, r3) ← rdBlk r2
  let (w, r4) ← rdBe32 r3
  let (h, r5) ← rdBe32 r4
  let (dep, r6) ← rdBe32 r5
  let (col, r7) ← rdBe32 r6
  let (dat, _) ← rdBlk r7
  let mime ← utf8DecStr m
  let desc ← utf8DecStr d
  some ⟨t, mime, desc, w, h, dep, col, dat⟩

/-! ### Container state -/

/-- A tag dictionary: string keys to lists of string values. -/
abbrev Dict := List (String × List String)

/-- An ID3 `APIC` (attached picture) frame. -/
structure Apic where
  mime : String
  desc : String
  typ : Nat
  data : Bytes
deriving DecidableEq, Repr

/-- An ID3 tag: text frames (keyed by frame id, `TIT2`, `TPE1`, …; a
comment frame sits under `COMM::eng`) plus the APIC frames. -/
structure Id3Tag where
  frames : Dict
  apics : List Apic
deriving DecidableEq, Repr

/-- An MP4 cover atom (`MP4Cover`): raw bytes plus a PNG/JPEG format tag. -/
structure MCover where
  data : Bytes
  isPng : Bool
deriving DecidableEq, Repr

/-- An MP4 atom value: a list of strings (text atoms), a list of
(track, total) pairs (`trkn`), or a list of cover atoms (`covr`). -/
inductive MVal where
  | strs (l : List String)
  | pairs (l : List (Nat × Nat))
  | covers (l : List MCover)
deriving DecidableEq, Repr

/-- An MP4 atom dictionary. -/
abbrev MDict := List (String × MVal)

/-- Parsed state of a file as the four mutagen loaders see it.
`malformed` is a file whose bytes do not parse as its extension's container:
the loader raises there. An MP3 with `none` has no ID3 header
(`ID3NoHeaderError`); `none` tag dictionaries elsewhere model
`x.tags is None`. -/
inductive Content where
  | mp3 (tag : Option Id3Tag)
  | flac (tags : Option VDict) (pics : List Pic)
  | ogg (tags : Option VDict)
  | m4a (tags : Option MDict)
  | malformed
deriving DecidableEq, Repr

/-- The canonical nine-field tag set. -/
structure CanonTags where
  title : String
  artist : String
  album : String
  year : String
  track : String
  genre : String
  comment : String
  albumartist : String
  composer : String
deriving DecidableEq, Repr

/-- The all-empty canonical tag set (`{k: "" for k, _ in CANON_FIELDS}`). -/
def emptyTags : CanonTags := ⟨"", "", "", "", "", "", "", "", ""⟩

/-! ### EasyID3

`EasyID3` is mutagen's view of an ID3 tag through canonical key names; each
easy key is backed by one text frame.  The source reads and writes MP3 tags
only through this view. -/

/-- The frame behind an easy key: the mapping EasyID3 registers for the
keys the source uses.  EasyID3 registers no `comment` (and no `year`) key,
so those probes find nothing on read, and writing a non-empty `comment`
raises `EasyID3KeyError`. -/
def easyFrame : String → Option String
  | "title" => some "TIT2"
  | "artist" => some "TPE1"
  | "album" => some "TALB"
  | "date" => some "TDRC"
  | "tracknumber" => some "TRCK"
  | "genre" => some "TCON"
  | "albumartist" => some "TPE2"
  | "composer" => some "TCOM"
  | _ => none

/-- Models `EasyID3.get`. -/
def easyGet (t : Id3Tag) (k : String) : Option (List String) :=
  match easyFrame k with
  | some f => dGet t.frames f
  | none => none

/-- Models `EasyID3(path)` inside the source's `try`: a parsed MP3 header gives its
tag; everything else (no header, malformed file) is caught and replaced by a
fresh empty `EasyID3()`. -/
def easyLoad (c : Content) : Id3Tag :=
  match c with
  | .mp3 (some t) => t
  | _ => ⟨[], []⟩

/-! ### `set_tags` -/

/-- Models `norm` of `set_tags`: `(v or "").strip()`. -/
def norm (v : String) : String := pyStrip v

/-- The canonical tag set after `t = {k: norm(tags_in.get(k, ""))}`. -/
def normTags (t : CanonTags) : CanonTags :=
  ⟨norm t.title, norm t.artist, norm t.album, norm t.year, norm t.track,
   norm t.genre, norm t.comment, norm t.albumartist, norm t.composer⟩

/-- Models `set_or_del` of the MP3 branch on the frame dictionary behind a
registered EasyID3 key: write `[val]` when the value is non-empty,
otherwise delete the frame (frame ids match exactly). -/
def setOrDelD (d : Dict) (k v : String) : Dict :=
  if v ≠ "" then dSet d k [v] else dDel d k

/-- Apply `set_or_del` for a list of key/value pairs in order. -/
def applyAllD (d : Dict) : List (String × String) → Dict
  | [] => d
  | (k, v) :: rest => applyAllD (setOrDelD d k v) rest

/-- Models `set_or_del` on an MP4 atom dictionary: `none` deletes (empty string or
empty list argument in the source), `some` assigns. -/
def setOrDelM (d : MDict) (k : String) (v : Option MVal) : MDict :=
  match v with
  | some x => dSet d k x
  | none => dDel d k

/-- Apply the MP4 `set_or_del` for a list of key/value pairs in order. -/
def applyAllM (d : MDict) : List (String × Option MVal) → MDict
  | [] => d
  | (k, v) :: rest => applyAllM (setOrDelM d k v) rest

/-- The eight `set_or_del` calls of the MP3 branch that EasyID3 accepts, as
frame-id/value pairs (easy keys `title`, `artist`, …, translated through
`easyFrame`).  The ninth call, `set_or_del("comment", …)`, never touches a
frame: with an empty value `"comment" in audio` is false (no-op), and with
a non-empty value the assignment raises before `save()` — handled in
`set_tags`. -/
def mp3Pairs (t : CanonTags) : List (String × String) :=
  [("TIT2", t.title), ("TPE1", t.artist), ("TALB", t.album), ("TDRC", t.year),
   ("TRCK", t.track), ("TCON", t.genre),
   ("TPE2", t.albumartist), ("TCOM", t.composer)]

/-- The nine `set_or_del` calls of the FLAC branch (the Ogg branch upper-cases
the same keys, which are already upper-case). -/
def vorbisPairs (t : CanonTags) : List (String × String) :=
  [("TITLE", t.title), ("ARTIST", t.artist), ("ALBUM", t.album),
   ("DATE", t.year), ("TRACKNUMBER", t.track), ("GENRE", t.genre),
   ("COMMENT", t.comment), ("ALBUMARTIST", t.albumartist),
   ("COMPOSER", t.composer)]

/-- Models `[v] if v else ""` of the M4A branch: a one-string atom, or a delete. -/
def strAtom (v : String) : Option MVal :=
  if v ≠ "" then some (.strs [v]) else none

/-- The nine `set_or_del` calls of the M4A branch.  `trkn` is written as the
pair `(int(track), 0)` when the track value passes `isdigit()` and is
deleted otherwise; `int()` raising on a digit-but-not-decimal track is
handled in `set_tags` before this list is applied. -/
def m4aPairs (t : CanonTags) : List (String × Option MVal) :=
  [("©nam", strAtom t.title), ("©ART", strAtom t.artist),
   ("©alb", strAtom t.album), ("©day", strAtom t.year),
   ("trkn", if pyIsdigit t.track then
      some (.pairs [((pyIntOpt t.track).getD 0, 0)]) else none),
   ("©gen", strAtom t.genre), ("©cmt", strAtom t.comment),
   ("aART", strAtom t.albumartist), ("©wrt", strAtom t.composer)]

/-- Models `set_tags(path, tags_in)` of `dual_audio_tag_manager_v2.py`: normalize
every canonical value, then dispatch on the extension; each branch writes
non-empty values and deletes keys for empty ones, then saves.  Two calls
raise before `save()` runs, leaving the file untouched: the MP3 branch's
`audio["comment"] = [val]` (EasyID3 registers no `comment` key, so a
non-empty comment raises `EasyID3KeyError`), and the M4A branch's
`int(t["track"])` on a track that passes `isdigit()` without being a
decimal-digit string (`ValueError`). -/
def set_tags (path : String) (tagsIn : CanonTags) (c : Content) :
    Except String Content :=
  let kind := get_audio_kind path
  let t := normTags tagsIn
  if kind = "mp3" then
    let audio := easyLoad c
    if t.comment ≠ "" then
      Except.error "EasyID3KeyError: comment is not a valid key"
    else
      Except.ok (.mp3 (some ⟨applyAllD audio.frames (mp3Pairs t), audio.apics⟩))
  else if kind = "flac" then
    match c with
    | .flac tags pics =>
        Except.ok (.flac (some (applyAllV (tags.getD []) (vorbisPairs t))) pics)
    | _ => Except.error "No se pudo abrir el archivo"
  else if kind = "ogg" then
    match c with
    | .ogg tags =>
        Except.ok (.ogg (some (applyAllV (tags.getD []) (vorbisPairs t))))
    | _ => Except.error "No se pudo abrir el archivo"
  else if kind = "m4a" then
    match c with
    | .m4a tags =>
        if pyIsdigit t.track && (pyIntOpt t.track).isNone then
          Except.error "ValueError: invalid literal for int() with base 10"
        else
          Except.ok (.m4a (some (applyAllM (tags.getD []) (m4aPairs t))))
    | _ => Except.error "No se pudo abrir el archivo"
  else Except.error "Formato no soportado para escribir tags."

/-! ### `get_tags` -/

/-- Models `str` of the first element of an MP4 atom value, as `safe_str` sees it
(`str` of a (track, total) tuple prints as `"(a, b)"`). -/
def mSafeStr : Option MVal → String
  | none => ""
  | some (.strs []) => ""
  | some (.strs (x :: _)) => x
  | some (.pairs []) => ""
  | some (.pairs ((a, b) :: _)) => "(" ++ toString a ++ ", " ++ toString b ++ ")"
  | some (.covers _) => ""

/-- The Ogg branch's lookup helper `g`: try the key as given, then
upper-cased, then lower-cased.  Each try goes through the case-insensitive
`VCommentDict`, which makes the fallbacks redundant. -/
def oggG (tgs : VDict) (key : String) : String :=
  if vHas tgs key then safe_str (vGet tgs key)
  else if vHas tgs (upperStr key) then safe_str (vGet tgs (upperStr key))
  else if vHas tgs (lowerStr key) then safe_str (vGet tgs (lowerStr key))
  else ""

/-- Models `get_tags(path)` of `dual_audio_tag_manager_v2.py`.  MP3 reads go through
`EasyID3` inside a catch-all `try` (so they cannot fail); FLAC/Ogg/M4A reads
first run the mutagen loader, which raises on a malformed file; an
unsupported extension falls through to the all-empty dictionary. -/
def get_tags (path : String) (c : Content) : Except String CanonTags :=
  let kind := get_audio_kind path
  if kind = "mp3" then
    let audio := easyLoad c
    Except.ok
      { title := safe_str (easyGet audio "title")
        artist := safe_str (easyGet audio "artist")
        album := safe_str (easyGet audio "album")
        year :=
          let d := safe_str (easyGet audio "date")
          if d ≠ "" then d else safe_str (easyGet audio "year")
        track := safe_str (easyGet audio "tracknumber")
        genre := safe_str (easyGet audio "genre")
        comment := safe_str (easyGet audio "comment")
        albumartist := safe_str (easyGet audio "albumartist")
        composer := safe_str (easyGet audio "composer") }
  else if kind = "flac" then
    match c with
    | .flac tags _ =>
        let tgs := tags.getD []
        Except.ok
          { title := safe_str (vGet tgs "TITLE")
            artist := safe_str (vGet tgs "ARTIST")
            album := safe_str (vGet tgs "ALBUM")
            year := safe_str (vGet tgs "DATE")
            track := safe_str (vGet tgs "TRACKNUMBER")
            genre := safe_str (vGet tgs "GENRE")
            comment := safe_str (vGet tgs "COMMENT")
            albumartist := safe_str (vGet tgs "ALBUMARTIST")
            composer := safe_str (vGet tgs "COMPOSER") }
    | _ => Except.error "No se pudo abrir el archivo"
  else if kind = "ogg" then
    match c with
    | .ogg tags =>
        let tgs := tags.getD []
        Except.ok
          { title := oggG tgs "TITLE"
            artist := oggG tgs "ARTIST"
            album := oggG tgs "ALBUM"
            year := oggG tgs "DATE"
            track := oggG tgs "TRACKNUMBER"
            genre := oggG tgs "GENRE"
            comment := oggG tgs "COMMENT"
            albumartist := oggG tgs "ALBUMARTIST"
            composer := oggG tgs "COMPOSER" }
    | _ => Except.error "No se pudo abrir el archivo"
  else if kind = "m4a" then
    match c with
    | .m4a tags =>
        let tgs := tags.getD []
        Except.ok
          { title := mSafeStr (dGet tgs "©nam")
            artist := mSafeStr (dGet tgs "©ART")
            album := mSafeStr (dGet tgs "©alb")
            year := mSafeStr (dGet tgs "©day")
            track :=
              match dGet tgs "trkn" with
              | some (.pairs ((a, _) :: _)) => if a = 0 then "" else toString a
              | _ => ""
            genre := mSafeStr (dGet tgs "©gen")
            comment := mSafeStr (dGet tgs "©cmt")
            albumartist := mSafeStr (dGet tgs "aART")
            composer := mSafeStr (dGet tgs "©wrt") }
    | _ => Except.error "No se pudo abrir el archivo"
  else Except.ok emptyTags

/-! ### Cover read/write -/

/-- The Ogg branch's `METADATA_BLOCK_PICTURE` lookup loop: try the
lower-case key, then the upper-case one; take the first value of the first
non-empty entry.  Lookups are case-insensitive, so the first try already
sees entries under either spelling. -/
def oggFindB64 (tgs : VDict) : Option String :=
  match vGet tgs "metadata_block_picture" with
  | some (v :: _) => some v
  | _ =>
    match vGet tgs "METADATA_BLOCK_PICTURE" with
    | some (v :: _) => some v
    | _ => none

/-- Models `get_cover_bytes(path)`: the embedded cover as `(bytes, mime)`, or `none`.
MP3 without an ID3 header is `ID3NoHeaderError`, caught and mapped to `none`;
a malformed container makes the loader raise (FLAC/Ogg/M4A, and the uncaught
non-header ID3 errors for MP3).  The Ogg branch base64-decodes and parses a
FLAC picture block, mapping any failure there to `none`. -/
def get_cover_bytes (path : String) (c : Content) :
    Except String (Option (Bytes × String)) :=
  let kind := get_audio_kind path
  if kind = "mp3" then
    match c with
    | .mp3 none => Except.ok none
    | .mp3 (some t) =>
        match t.apics with
        | [] => Except.ok none
        | a :: _ =>
            Except.ok (some (a.data, if a.mime ≠ "" then a.mime else guess_mime_from_bytes a.data))
    | _ => Except.error "No se pudo abrir el archivo"
  else if kind = "flac" then
    match c with
    | .flac _ pics =>
        match pics with
        | [] => Except.ok none
        | p :: _ =>
            Except.ok (some (p.data, if p.mime ≠ "" then p.mime else guess_mime_from_bytes p.data))
    | _ => Except.error "No se pudo abrir el archivo"
  else if kind = "ogg" then
    match c with
    | .ogg tags =>
        let tgs := tags.getD []
        match oggFindB64 tgs with
        | none => Except.ok none
        | some b64 =>
            if b64 = "" then Except.ok none
            else
              match (b64decodeS b64).bind picParse with
              | none => Except.ok none
              | some pic =>
                  Except.ok (some (pic.data,
                    if pic.mime ≠ "" then pic.mime else guess_mime_from_bytes pic.data))
    | _ => Except.error "No se pudo abrir el archivo"
  else if kind = "m4a" then
    match c with
    | .m4a none => Except.ok none
    | .m4a (some tgs) =>
        match dGet tgs "covr" with
        | some (.covers (cv :: _)) =>
            Except.ok (some (cv.data, if cv.isPng then "image/png" else "image/jpeg"))
        | _ => Except.ok none
    | _ => Except.error "No se pudo abrir el archivo"
  else Except.ok none

/-- The picture block `set_cover_bytes` builds for FLAC and Ogg:
front cover (type 3), given or sniffed MIME, description `"Cover"`. -/
def mkPic (mime : String) (data : Bytes) : Pic :=
  ⟨3, if mime ≠ "" then mime else guess_mime_from_bytes data, "Cover", 0, 0, 0, 0, data⟩

/-- The Ogg cover write's guarded delete `if k in og.tags: del og.tags[k]`
(both spellings are tried; the case-insensitive delete already removes every
variant on the first hit). -/
def oggDelKey (tgs : VDict) (k : String) : VDict :=
  if vHas tgs k then vDel tgs k else tgs

/-- The Ogg cover write on the tag list: the guarded deletes of both
`METADATA_BLOCK_PICTURE` spellings, then the assignment (which itself
deletes any remaining case-variant before appending). -/
def oggSetCover (tgs : VDict) (b64 : String) : VDict :=
  vSet (oggDelKey (oggDelKey tgs "metadata_block_picture")
    "METADATA_BLOCK_PICTURE") "METADATA_BLOCK_PICTURE" [b64]

/-- Models `set_cover_bytes(path, data, mime)`: clear any existing cover entries and
write exactly one front cover.  MP3 synthesizes an empty ID3 tag when the
file has none; Ogg stores the base64-encoded picture block under
`METADATA_BLOCK_PICTURE` after deleting both key spellings; M4A chooses the
PNG format tag iff the lower-cased MIME ends in `"png"`. -/
def set_cover_bytes (path : String) (data : Bytes) (mime : String)
    (c : Content) : Except String Content :=
  let kind := get_audio_kind path
  if kind = "mp3" then
    match c with
    | .mp3 ot =>
        let id3 := ot.getD ⟨[], []⟩
        let m := if mime ≠ "" then mime else guess_mime_from_bytes data
        Except.ok (.mp3 (some ⟨id3.frames, [⟨m, "Cover", 3, data⟩]⟩))
    | _ => Except.error "No se pudo abrir el archivo"
  else if kind = "flac" then
    match c with
    | .flac tags _ => Except.ok (.flac tags [mkPic mime data])
    | _ => Except.error "No se pudo abrir el archivo"
  else if kind = "ogg" then
    match c with
    | .ogg tags =>
        let b64 := b64encodeS (picWrite (mkPic mime data))
        Except.ok (.ogg (some (oggSetCover (tags.getD []) b64)))
    | _ => Except.error "No se pudo abrir el archivo"
  else if kind = "m4a" then
    match c with
    | .m4a tags =>
        let tgs := tags.getD []
        let fmtPng := strEndsWith (lowerStr mime) "png"
        Except.ok (.m4a (some (dSet tgs "covr" (.covers [⟨data, fmtPng⟩]))))
    | _ => Except.error "No se pudo abrir el archivo"
  else Except.error "Formato no soportado para escribir carátula."

/-- Outcome of the cover-copy action: the source had no cover (the dialog
"El archivo del panel izquierdo no tiene carátula embebida" and an early
return), or the cover was copied. -/
inductive CopyOutcome where
  | noCover
  | copied
deriving DecidableEq, Repr

/-- Models `MainWindow.copy_cover_left_to_right` of `dual_audio_tag_manager_v2.py`,
restricted to its codec effect: read the source cover; if there is none,
report and leave the destination untouched, otherwise write it to the
destination. -/
def copy_cover_left_to_right (src dst : String) (cs cd : Content) :
    Except String (Content × CopyOutcome) :=
  match get_cover_bytes src cs with
  | .error e => .error e
  | .ok none => .ok (cd, .noCover)
  | .ok (some (data, mime)) =>
      match set_cover_bytes dst data mime cd with
      | .error e => .error e
      | .ok cd2 => .ok (cd2, .copied)

/-! ### The older revision's `get_tags` (`dual_audio_tag_manager.py`)

Its whole body sits in a catch-all `try`, so it never raises: a failure mid-
way returns the fields assigned so far (stringified), and any malformed file
returns the all-empty dictionary. -/

/-- The nine fields of the v1 `data` dictionary, in insertion order (its
`date` key feeds the canonical year slot, `track` the track slot). -/
inductive V1Field where
  | title | artist | album | date | track | genre | comment | albumartist | composer
deriving DecidableEq, Repr

/-- Assign one v1 field. -/
def v1SetField (d : CanonTags) : V1Field → String → CanonTags
  | .title, v => { d with title := v }
  | .artist, v => { d with artist := v }
  | .album, v => { d with album := v }
  | .date, v => { d with year := v }
  | .track, v => { d with track := v }
  | .genre, v => { d with genre := v }
  | .comment, v => { d with comment := v }
  | .albumartist, v => { d with albumartist := v }
  | .composer, v => { d with composer := v }

/-- Models `str(tags.get(FID, ""))` for an ID3 frame: the frame's first text, or
the empty string. -/
def frameStr : Option (List String) → String
  | none => ""
  | some [] => ""
  | some (v :: _) => v

/-- The v1 MP3 branch: raw ID3 frame reads. -/
def v1Mp3Read (t : Id3Tag) : CanonTags :=
  { title := frameStr (dGet t.frames "TIT2")
    artist := frameStr (dGet t.frames "TPE1")
    album := frameStr (dGet t.frames "TALB")
    year := frameStr (dGet t.frames "TDRC")
    track := frameStr (dGet t.frames "TRCK")
    genre := frameStr (dGet t.frames "TCON")
    comment := frameStr (dGet t.frames "COMM::eng")
    albumartist := frameStr (dGet t.frames "TPE2")
    composer := frameStr (dGet t.frames "TCOM") }

/-- The v1 FLAC/Ogg loop `for k in data: if k.upper() in audio: data[k] =
audio[k.upper()][0]`.  Membership and indexing go through the
case-insensitive `VCommentDict`, whose `__getitem__` aggregates every
matching value, so a key that tests present always indexes a non-empty
list. -/
def v1VorbisGo (tgs : VDict) (d : CanonTags) : List (V1Field × String) → CanonTags
  | [] => d
  | (f, k) :: rest =>
    match vGetAll tgs k with
    | [] => v1VorbisGo tgs d rest
    | v :: _ => v1VorbisGo tgs (v1SetField d f v) rest

/-- The v1 FLAC/Ogg field order with its upper-cased keys (note `TRACK`,
not `TRACKNUMBER`). -/
def v1VorbisRead (tgs : VDict) : CanonTags :=
  v1VorbisGo tgs emptyTags
    [(.title, "TITLE"), (.artist, "ARTIST"), (.album, "ALBUM"),
     (.date, "DATE"), (.track, "TRACK"), (.genre, "GENRE"),
     (.comment, "COMMENT"), (.albumartist, "ALBUMARTIST"),
     (.composer, "COMPOSER")]

/-- Models `str(audio.get(k, [""])[0])` of the v1 M4A branch: the default covers an
absent key; a present key with an empty list raises `IndexError` (`none`
here); a `trkn` pair prints as `"(a, b)"`. -/
def v1M4aGet (tgs : MDict) (k : String) : Option String :=
  match dGet tgs k with
  | none => some ""
  | some (.strs (v :: _)) => some v
  | some (.strs []) => none
  | some (.pairs ((a, b) :: _)) => some ("(" ++ toString a ++ ", " ++ toString b ++ ")")
  | some (.pairs []) => none
  | some (.covers _) => some ""

/-- The v1 M4A loop with abort-on-`IndexError` semantics. -/
def v1M4aGo (tgs : MDict) (d : CanonTags) : List (V1Field × String) → CanonTags
  | [] => d
  | (f, k) :: rest =>
    match v1M4aGet tgs k with
    | none => d
    | some v => v1M4aGo tgs (v1SetField d f v) rest

/-- The v1 M4A field order and atom keys. -/
def v1M4aRead (tgs : MDict) : CanonTags :=
  v1M4aGo tgs emptyTags
    [(.title, "©nam"), (.artist, "©ART"), (.album, "©alb"), (.date, "©day"),
     (.track, "trkn"), (.genre, "©gen"), (.comment, "©cmt"),
     (.albumartist, "aART"), (.composer, "©wrt")]

/-- Models `get_tags(audio, path)` of `dual_audio_tag_manager.py`: dispatch on the
lower-cased path's ending; the catch-all `except` turns every failure into
the defaults collected so far, so the function is total. -/
def v1_get_tags (path : String) (c : Content) : CanonTags :=
  let pl := lowerStr path
  if strEndsWith pl ".mp3" then
    match c with
    | .mp3 (some t) => v1Mp3Read t
    | _ => emptyTags
  else if strEndsWith pl ".flac" || strEndsWith pl ".ogg" then
    match c with
    | .flac (some tgs) _ => v1VorbisRead tgs
    | .ogg (some tgs) => v1VorbisRead tgs
    | _ => emptyTags
  else if strEndsWith pl ".m4a" then
    match c with
    | .m4a (some tgs) => v1M4aRead tgs
    | _ => emptyTags
  else emptyTags

/-! ### Lemmas about the chained `set_or_del` writes -/

theorem dGet_setOrDelD_self (d : Dict) (k v : String) :
    dGet (setOrDelD d k v) k = if v = "" then none else some [v] := by
  by_cases h : v = "" <;> simp [setOrDelD, h]

theorem dGet_setOrDelD_ne (d : Dict) (k k' v : String) (h : k ≠ k') :
    dGet (setOrDelD d k' v) k = dGet d k := by
  by_cases hv : v = "" <;> simp [setOrDelD, hv, h]

theorem dGet_setOrDelM_self (d : MDict) (k : String) (v : Option MVal) :
    dGet (setOrDelM d k v) k = v := by
  cases v <;> simp [setOrDelM]

theorem dGet_setOrDelM_ne (d : MDict) (k k' : String) (v : Option MVal)
    (h : k ≠ k') : dGet (setOrDelM d k' v) k = dGet d k := by
  cases v <;> simp [setOrDelM, h]

/-! ### Lemmas about the case-insensitive Vorbis dictionary -/

theorem vMatch_iff (a b : String) : vMatch a b = true ↔ lowerStr a = lowerStr b := by
  simp [vMatch]

theorem vGetAll_congr (d : VDict) (k k2 : String) (h : lowerStr k = lowerStr k2) :
    vGetAll d k = vGetAll d k2 := by
  induction d with
  | nil => rfl
  | cons e rest ih =>
    obtain ⟨k0, v⟩ := e
    simp only [vGetAll, vMatch, h, ih]

theorem vGetAll_append (d e : VDict) (k : String) :
    vGetAll (d ++ e) k = vGetAll d k ++ vGetAll e k := by
  induction d with
  | nil => rfl
  | cons x rest ih =>
    obtain ⟨k0, v⟩ := x
    by_cases h : vMatch k0 k <;> simp [vGetAll, h, ih]

theorem vGetAll_vDel_match (d : VDict) (k k2 : String)
    (h : lowerStr k = lowerStr k2) : vGetAll (vDel d k2) k = [] := by
  induction d with
  | nil => rfl
  | cons e rest ih =>
    obtain ⟨k0, v⟩ := e
    by_cases h0 : vMatch k0 k2
    · simp [vDel, h0, ih]
    · have h0k : ¬(vMatch k0 k = true) := by
        intro hm
        exact h0 ((vMatch_iff _ _).mpr (((vMatch_iff _ _).mp hm).trans h))
      simp [vDel, h0, vGetAll, h0k, ih]

theorem vGetAll_vDel_nomatch (d : VDict) (k k2 : String)
    (h : lowerStr k ≠ lowerStr k2) : vGetAll (vDel d k2) k = vGetAll d k := by
  induction d with
  | nil => rfl
  | cons e rest ih =>
    obtain ⟨k0, v⟩ := e
    by_cases h0 : vMatch k0 k2
    · have h0k : ¬(vMatch k0 k = true) := by
        intro hm
        exact h ((((vMatch_iff _ _).mp hm).symm).trans ((vMatch_iff _ _).mp h0))
      simp [vDel, h0, vGetAll, h0k, ih]
    · by_cases hk : vMatch k0 k <;> simp [vDel, h0, vGetAll, hk, ih]

theorem dGet_vDel_match (d : VDict) (k k2 : String)
    (h : lowerStr k = lowerStr k2) : dGet (vDel d k2) k = none := by
  induction d with
  | nil => rfl
  | cons e rest ih =>
    obtain ⟨k0, v⟩ := e
    by_cases h0 : vMatch k0 k2
    · simp [vDel, h0, ih]
    · have hne : k0 ≠ k := by
        intro he
        subst he
        exact h0 ((vMatch_iff _ _).mpr h)
      simp [vDel, h0, dGet_cons, hne, ih]

theorem vGetAll_vSet_match (d : VDict) (k k2 v : String)
    (h : lowerStr k = lowerStr k2) : vGetAll (vSet d k2 [v]) k = [v] := by
  rw [vSet, vGetAll_append, vGetAll_vDel_match d k k2 h]
  have hm : vMatch k2 k = true := (vMatch_iff _ _).mpr h.symm
  simp [vGetAll, hm]

theorem vGetAll_vSet_nomatch (d : VDict) (k k2 v : String)
    (h : lowerStr k ≠ lowerStr k2) : vGetAll (vSet d k2 [v]) k = vGetAll d k := by
  rw [vSet, vGetAll_append, vGetAll_vDel_nomatch d k k2 h]
  have hm : ¬(vMatch k2 k = true) := fun hm => h ((vMatch_iff _ _).mp hm).symm
  simp [vGetAll, hm]

theorem vHas_iff (d : VDict) (k : String) :
    vHas d k = true ↔ vGetAll d k ≠ [] := by
  rw [vHas]
  cases vGetAll d k <;> simp

theorem vGetAll_setOrDelV_self (d : VDict) (k k2 v : String)
    (h : lowerStr k = lowerStr k2) :
    vGetAll (setOrDelV d k2 v) k = if v = "" then [] else [v] := by
  by_cases hv : v = ""
  · rw [setOrDelV, if_neg (by simp [hv]), if_pos hv]
    by_cases hh : vHas d k2
    · rw [if_pos hh]
      exact vGetAll_vDel_match d k k2 h
    · rw [if_neg hh]
      have h2 : vGetAll d k2 = [] := by
        by_contra hne
        exact hh ((vHas_iff _ _).mpr hne)
      rw [vGetAll_congr d k k2 h, h2]
  · rw [setOrDelV, if_pos hv, if_neg hv]
    exact vGetAll_vSet_match d k k2 v h

theorem vGetAll_setOrDelV_ne (d : VDict) (k k2 v : String)
    (h : lowerStr k ≠ lowerStr k2) :
    vGetAll (setOrDelV d k2 v) k = vGetAll d k := by
  by_cases hv : v = ""
  · rw [setOrDelV, if_neg (by simp [hv])]
    by_cases hh : vHas d k2
    · rw [if_pos hh]
      exact vGetAll_vDel_nomatch d k k2 h
    · rw [if_neg hh]
  · rw [setOrDelV, if_pos hv]
    exact vGetAll_vSet_nomatch d k k2 v h

theorem applyAllV_get_notmem (kvs : List (String × String)) (d : VDict)
    (k : String) (hk : ∀ k0 ∈ kvs.map Prod.fst, lowerStr k ≠ lowerStr k0) :
    vGetAll (applyAllV d kvs) k = vGetAll d k := by
  induction kvs generalizing d with
  | nil => rfl
  | cons kv rest ih =>
    obtain ⟨k0, v0⟩ := kv
    rw [applyAllV, ih _ (fun x hx => hk x (by simp [hx])),
      vGetAll_setOrDelV_ne _ _ _ _ (hk k0 (by simp))]

theorem applyAllV_get_mem (kvs : List (String × String)) (d : VDict)
    (k v : String) (hmem : (k, v) ∈ kvs)
    (hnd : ((kvs.map Prod.fst).map lowerStr).Nodup) :
    vGetAll (applyAllV d kvs) k = if v = "" then [] else [v] := by
  induction kvs generalizing d with
  | nil => cases hmem
  | cons kv rest ih =>
    obtain ⟨k0, v0⟩ := kv
    simp only [List.map_cons, List.nodup_cons] at hnd
    rcases List.mem_cons.mp hmem with h | h
    · injection h with h1 h2
      subst h1
      subst h2
      have hk : ∀ x ∈ rest.map Prod.fst, lowerStr k ≠ lowerStr x := by
        intro x hx hkx
        exact hnd.1 (List.mem_map.mpr ⟨x, hx, hkx.symm⟩)
      rw [applyAllV, applyAllV_get_notmem _ _ _ hk,
        vGetAll_setOrDelV_self _ _ _ _ rfl]
    · have hk : lowerStr k ≠ lowerStr k0 := by
        intro hkk
        apply hnd.1
        rw [← hkk]
        exact List.mem_map.mpr ⟨k, List.mem_map.mpr ⟨(k, v), h, rfl⟩, rfl⟩
      rw [applyAllV, ih _ h hnd.2]

theorem safe_str_vGet (d : VDict) (k v : String)
    (h : vGetAll d k = if v = "" then [] else [v]) : safe_str (vGet d k) = v := by
  by_cases hv : v = ""
  · have hga : vGetAll d k = [] := by rw [h, if_pos hv]
    rw [vGet.eq_def, hga, hv]
    rfl
  · have hga : vGetAll d k = [v] := by rw [h, if_neg hv]
    rw [vGet.eq_def, hga]
    rfl

theorem pyIsdigit_of_pyIntOpt (s : String) (n : Nat) (h : pyIntOpt s = some n) :
    pyIsdigit s = true := by
  rw [pyIntOpt] at h
  by_cases hc : (!s.data.isEmpty && s.data.all fun c => (charDecimal c).isSome) = true
  · rw [pyIsdigit]
    simp only [Bool.and_eq_true, List.all_eq_true] at hc ⊢
    exact ⟨hc.1, fun c hcm => by simp [hc.2 c hcm]⟩
  · rw [if_neg hc] at h
    cases h

theorem applyAllD_get_notmem (kvs : List (String × String)) (d : Dict)
    (k : String) (hk : k ∉ kvs.map Prod.fst) :
    dGet (applyAllD d kvs) k = dGet d k := by
  induction kvs generalizing d with
  | nil => rfl
  | cons kv rest ih =>
    obtain ⟨k0, v0⟩ := kv
    simp only [List.map_cons, List.mem_cons, not_or] at hk
    rw [applyAllD, ih _ hk.2, dGet_setOrDelD_ne _ _ _ _ hk.1]

theorem applyAllD_get_mem (kvs : List (String × String)) (d : Dict)
    (k v : String) (hmem : (k, v) ∈ kvs) (hnd : (kvs.map Prod.fst).Nodup) :
    dGet (applyAllD d kvs) k = if v = "" then none else some [v] := by
  induction kvs generalizing d with
  | nil => cases hmem
  | cons kv rest ih =>
    obtain ⟨k0, v0⟩ := kv
    simp only [List.map_cons, List.nodup_cons] at hnd
    rcases List.mem_cons.mp hmem with h | h
    · obtain ⟨rfl, rfl⟩ := Prod.mk.injEq .. ▸ h
      have hk : k ∉ rest.map Prod.fst := by
        injection h with h1 h2
        exact h1 ▸ hnd.1
      rw [applyAllD, applyAllD_get_notmem _ _ _ hk, dGet_setOrDelD_self]
    · have hk : k ≠ k0 := by
        intro hkk
        exact hnd.1 (hkk ▸ (List.mem_map.mpr ⟨(k, v), h, rfl⟩))
      rw [applyAllD, ih _ h hnd.2]

theorem applyAllM_get_notmem (kvs : List (String × Option MVal)) (d : MDict)
    (k : String) (hk : k ∉ kvs.map Prod.fst) :
    dGet (applyAllM d kvs) k = dGet d k := by
  induction kvs generalizing d with
  | nil => rfl
  | cons kv rest ih =>
    obtain ⟨k0, v0⟩ := kv
    simp only [List.map_cons, List.mem_cons, not_or] at hk
    rw [applyAllM, ih _ hk.2, dGet_setOrDelM_ne _ _ _ _ hk.1]

theorem applyAllM_get_mem (kvs : List (String × Option MVal)) (d : MDict)
    (k : String) (v : Option MVal) (hmem : (k, v) ∈ kvs)
    (hnd : (kvs.map Prod.fst).Nodup) :
    dGet (applyAllM d kvs) k = v := by
  induction kvs generalizing d with
  | nil => cases hmem
  | cons kv rest ih =>
    obtain ⟨k0, v0⟩ := kv
    simp only [List.map_cons, List.nodup_cons] at hnd
    rcases List.mem_cons.mp hmem with h | h
    · have hk : k ∉ rest.map Prod.fst := by
        injection h with h1 h2
        exact h1 ▸ hnd.1
      injection h with h1 h2
      subst h1; subst h2
      rw [applyAllM, applyAllM_get_notmem _ _ _ hk, dGet_setOrDelM_self]
    · have hk : k ≠ k0 := by
        intro hkk
        exact hnd.1 (hkk ▸ (List.mem_map.mpr ⟨(k, v), h, rfl⟩))
      rw [applyAllM, ih _ h hnd.2]

/-! ### The nine native keys of each branch -/

/-- Native frame ids the MP3 branch writes (no comment frame: EasyID3 has
no `comment` key). -/
def mp3Keys : List String :=
  ["TIT2", "TPE1", "TALB", "TDRC", "TRCK", "TCON", "TPE2", "TCOM"]

/-- Native comment keys the FLAC and Ogg branches write. -/
def vorbisKeys : List String :=
  ["TITLE", "ARTIST", "ALBUM", "DATE", "TRACKNUMBER", "GENRE", "COMMENT",
   "ALBUMARTIST", "COMPOSER"]

/-- Native atom names the M4A branch writes. -/
def m4aKeys : List String :=
  ["©nam", "©ART", "©alb", "©day", "trkn", "©gen", "©cmt", "aART", "©wrt"]

theorem mp3Pairs_keys (t : CanonTags) : (mp3Pairs t).map Prod.fst = mp3Keys := rfl

theorem vorbisPairs_keys (t : CanonTags) :
    (vorbisPairs t).map Prod.fst = vorbisKeys := rfl

theorem m4aPairs_keys (t : CanonTags) : (m4aPairs t).map Prod.fst = m4aKeys := rfl

theorem mp3Keys_nodup (t : CanonTags) : ((mp3Pairs t).map Prod.fst).Nodup := by
  rw [mp3Pairs_keys]; decide

theorem vorbisKeys_nodup (t : CanonTags) :
    ((vorbisPairs t).map Prod.fst).Nodup := by
  rw [vorbisPairs_keys]; decide

theorem m4aKeys_nodup (t : CanonTags) : ((m4aPairs t).map Prod.fst).Nodup := by
  rw [m4aPairs_keys]; decide

/-- What one canonical value looks like after `set_or_del` and a lookup. -/
theorem safe_str_if (v : String) :
    safe_str (if v = "" then none else some [v]) = v := by
  by_cases h : v = "" <;> simp [h, safe_str]

theorem mSafeStr_strAtom (v : String) : mSafeStr (strAtom v) = v := by
  by_cases h : v = "" <;> simp [strAtom, h, mSafeStr]

theorem dHas_iff {α : Type} (d : List (String × α)) (k : String) :
    dHas d k = (dGet d k).isSome := rfl

/-! Lookups of each written key after the nine writes of one branch. -/

theorem mp3W_TIT2 (d : Dict) (t : CanonTags) :
    dGet (applyAllD d (mp3Pairs t)) "TIT2" =
      if t.title = "" then none else some [t.title] :=
  applyAllD_get_mem _ _ _ _ (by simp [mp3Pairs]) (mp3Keys_nodup t)

theorem mp3W_TPE1 (d : Dict) (t : CanonTags) :
    dGet (applyAllD d (mp3Pairs t)) "TPE1" =
      if t.artist = "" then none else some [t.artist] :=
  applyAllD_get_mem _ _ _ _ (by simp [mp3Pairs]) (mp3Keys_nodup t)

theorem mp3W_TALB (d : Dict) (t : CanonTags) :
    dGet (applyAllD d (mp3Pairs t)) "TALB" =
      if t.album = "" then none else some [t.album] :=
  applyAllD_get_mem _ _ _ _ (by simp [mp3Pairs]) (mp3Keys_nodup t)

theorem mp3W_TDRC (d : Dict) (t : CanonTags) :
    dGet (applyAllD d (mp3Pairs t)) "TDRC" =
      if t.year = "" then none else some [t.year] :=
  applyAllD_get_mem _ _ _ _ (by simp [mp3Pairs]) (mp3Keys_nodup t)

theorem mp3W_TRCK (d : Dict) (t : CanonTags) :
    dGet (applyAllD d (mp3Pairs t)) "TRCK" =
      if t.track = "" then none else some [t.track] :=
  applyAllD_get_mem _ _ _ _ (by simp [mp3Pairs]) (mp3Keys_nodup t)

theorem mp3W_TCON (d : Dict) (t : CanonTags) :
    dGet (applyAllD d (mp3Pairs t)) "TCON" =
      if t.genre = "" then none else some [t.genre] :=
  applyAllD_get_mem _ _ _ _ (by simp [mp3Pairs]) (mp3Keys_nodup t)

theorem mp3W_TPE2 (d : Dict) (t : CanonTags) :
    dGet (applyAllD d (mp3Pairs t)) "TPE2" =
      if t.albumartist = "" then none else some [t.albumartist] :=
  applyAllD_get_mem _ _ _ _ (by simp [mp3Pairs]) (mp3Keys_nodup t)

theorem mp3W_TCOM (d : Dict) (t : CanonTags) :
    dGet (applyAllD d (mp3Pairs t)) "TCOM" =
      if t.composer = "" then none else some [t.composer] :=
  applyAllD_get_mem _ _ _ _ (by simp [mp3Pairs]) (mp3Keys_nodup t)

theorem vorbW_TITLE (d : VDict) (t : CanonTags) :
    vGetAll (applyAllV d (vorbisPairs t)) "TITLE" =
      if t.title = "" then [] else [t.title] :=
  applyAllV_get_mem _ _ _ _ (by simp [vorbisPairs])
    (by rw [vorbisPairs_keys]; decide)

theorem vorbW_ARTIST (d : VDict) (t : CanonTags) :
    vGetAll (applyAllV d (vorbisPairs t)) "ARTIST" =
      if t.artist = "" then [] else [t.artist] :=
  applyAllV_get_mem _ _ _ _ (by simp [vorbisPairs])
    (by rw [vorbisPairs_keys]; decide)

theorem vorbW_ALBUM (d : VDict) (t : CanonTags) :
    vGetAll (applyAllV d (vorbisPairs t)) "ALBUM" =
      if t.album = "" then [] else [t.album] :=
  applyAllV_get_mem _ _ _ _ (by simp [vorbisPairs])
    (by rw [vorbisPairs_keys]; decide)

theorem vorbW_DATE (d : VDict) (t : CanonTags) :
    vGetAll (applyAllV d (vorbisPairs t)) "DATE" =
      if t.year = "" then [] else [t.year] :=
  applyAllV_get_mem _ _ _ _ (by simp [vorbisPairs])
    (by rw [vorbisPairs_keys]; decide)

theorem vorbW_TRACKNUMBER (d : VDict) (t : CanonTags) :
    vGetAll (applyAllV d (vorbisPairs t)) "TRACKNUMBER" =
      if t.track = "" then [] else [t.track] :=
  applyAllV_get_mem _ _ _ _ (by simp [vorbisPairs])
    (by rw [vorbisPairs_keys]; decide)

theorem vorbW_GENRE (d : VDict) (t : CanonTags) :
    vGetAll (applyAllV d (vorbisPairs t)) "GENRE" =
      if t.genre = "" then [] else [t.genre] :=
  applyAllV_get_mem _ _ _ _ (by simp [vorbisPairs])
    (by rw [vorbisPairs_keys]; decide)

theorem vorbW_COMMENT (d : VDict) (t : CanonTags) :
    vGetAll (applyAllV d (vorbisPairs t)) "COMMENT" =
      if t.comment = "" then [] else [t.comment] :=
  applyAllV_get_mem _ _ _ _ (by simp [vorbisPairs])
    (by rw [vorbisPairs_keys]; decide)

theorem vorbW_ALBUMARTIST (d : VDict) (t : CanonTags) :
    vGetAll (applyAllV d (vorbisPairs t)) "ALBUMARTIST" =
      if t.albumartist = "" then [] else [t.albumartist] :=
  applyAllV_get_mem _ _ _ _ (by simp [vorbisPairs])
    (by rw [vorbisPairs_keys]; decide)

theorem vorbW_COMPOSER (d : VDict) (t : CanonTags) :
    vGetAll (applyAllV d (vorbisPairs t)) "COMPOSER" =
      if t.composer = "" then [] else [t.composer] :=
  applyAllV_get_mem _ _ _ _ (by simp [vorbisPairs])
    (by rw [vorbisPairs_keys]; decide)

theorem m4aW_nam (d : MDict) (t : CanonTags) :
    dGet (applyAllM d (m4aPairs t)) "©nam" = strAtom t.title :=
  applyAllM_get_mem _ _ _ _ (by simp [m4aPairs]) (m4aKeys_nodup t)

theorem m4aW_ART (d : MDict) (t : CanonTags) :
    dGet (applyAllM d (m4aPairs t)) "©ART" = strAtom t.artist :=
  applyAllM_get_mem _ _ _ _ (by simp [m4aPairs]) (m4aKeys_nodup t)

theorem m4aW_alb (d : MDict) (t : CanonTags) :
    dGet (applyAllM d (m4aPairs t)) "©alb" = strAtom t.album :=
  applyAllM_get_mem _ _ _ _ (by simp [m4aPairs]) (m4aKeys_nodup t)

theorem m4aW_day (d : MDict) (t : CanonTags) :
    dGet (applyAllM d (m4aPairs t)) "©day" = strAtom t.year :=
  applyAllM_get_mem _ _ _ _ (by simp [m4aPairs]) (m4aKeys_nodup t)

theorem m4aW_trkn (d : MDict) (t : CanonTags) :
    dGet (applyAllM d (m4aPairs t)) "trkn" =
      if pyIsdigit t.track then
        some (.pairs [((pyIntOpt t.track).getD 0, 0)]) else none :=
  applyAllM_get_mem _ _ _ _ (by simp [m4aPairs]) (m4aKeys_nodup t)

theorem m4aW_gen (d : MDict) (t : CanonTags) :
    dGet (applyAllM d (m4aPairs t)) "©gen" = strAtom t.genre :=
  applyAllM_get_mem _ _ _ _ (by simp [m4aPairs]) (m4aKeys_nodup t)

theorem m4aW_cmt (d : MDict) (t : CanonTags) :
    dGet (applyAllM d (m4aPairs t)) "©cmt" = strAtom t.comment :=
  applyAllM_get_mem _ _ _ _ (by simp [m4aPairs]) (m4aKeys_nodup t)

theorem m4aW_aART (d : MDict) (t : CanonTags) :
    dGet (applyAllM d (m4aPairs t)) "aART" = strAtom t.albumartist :=
  applyAllM_get_mem _ _ _ _ (by simp [m4aPairs]) (m4aKeys_nodup t)

theorem m4aW_wrt (d : MDict) (t : CanonTags) :
    dGet (applyAllM d (m4aPairs t)) "©wrt" = strAtom t.composer :=
  applyAllM_get_mem _ _ _ _ (by simp [m4aPairs]) (m4aKeys_nodup t)


theorem if_ne_empty (v : String) : (if v ≠ "" then v else "") = v := by
  by_cases h : v = "" <;> simp [h]

/-! ### What each branch of `set_tags` produces, and what `get_tags` reads -/

theorem set_tags_mp3 (p : String) (T : CanonTags) (c : Content)
    (hk : get_audio_kind p = "mp3") (hcm : (normTags T).comment = "") :
    set_tags p T c =
      Except.ok (.mp3 (some ⟨applyAllD (easyLoad c).frames (mp3Pairs (normTags T)),
        (easyLoad c).apics⟩)) := by
  rw [set_tags.eq_def]
  simp [hk, hcm]

theorem set_tags_mp3_err (p : String) (T : CanonTags) (c : Content)
    (hk : get_audio_kind p = "mp3") (hcm : (normTags T).comment ≠ "") :
    set_tags p T c =
      Except.error "EasyID3KeyError: comment is not a valid key" := by
  rw [set_tags.eq_def]
  simp [hk, hcm]

theorem set_tags_flac (p : String) (T : CanonTags) (tg : Option VDict)
    (pics : List Pic) (hk : get_audio_kind p = "flac") :
    set_tags p T (.flac tg pics) =
      Except.ok (.flac (some (applyAllV (tg.getD []) (vorbisPairs (normTags T)))) pics) := by
  rw [set_tags.eq_def]
  simp [hk]

theorem set_tags_ogg (p : String) (T : CanonTags) (tg : Option VDict)
    (hk : get_audio_kind p = "ogg") :
    set_tags p T (.ogg tg) =
      Except.ok (.ogg (some (applyAllV (tg.getD []) (vorbisPairs (normTags T))))) := by
  rw [set_tags.eq_def]
  simp [hk]

theorem set_tags_m4a (p : String) (T : CanonTags) (tg : Option MDict)
    (hk : get_audio_kind p = "m4a")
    (hok : pyIsdigit (normTags T).track = false ∨
      (pyIntOpt (normTags T).track).isSome = true) :
    set_tags p T (.m4a tg) =
      Except.ok (.m4a (some (applyAllM (tg.getD []) (m4aPairs (normTags T))))) := by
  have hcond : (pyIsdigit (normTags T).track &&
      (pyIntOpt (normTags T).track).isNone) = false := by
    rcases hok with h | h
    · simp [h]
    · cases ho : pyIntOpt (normTags T).track with
      | none => rw [ho] at h; cases h
      | some n => simp [ho]
  rw [set_tags.eq_def]
  simp [hk, hcond]

theorem set_tags_m4a_err (p : String) (T : CanonTags) (tg : Option MDict)
    (hk : get_audio_kind p = "m4a")
    (hd : pyIsdigit (normTags T).track = true)
    (hn : pyIntOpt (normTags T).track = none) :
    set_tags p T (.m4a tg) =
      Except.error "ValueError: invalid literal for int() with base 10" := by
  rw [set_tags.eq_def]
  simp [hk, hd, hn]

theorem get_tags_mp3 (p : String) (fr : Dict) (ap : List Apic)
    (hk : get_audio_kind p = "mp3") :
    get_tags p (.mp3 (some ⟨fr, ap⟩)) =
      Except.ok
        { title := safe_str (dGet fr "TIT2")
          artist := safe_str (dGet fr "TPE1")
          album := safe_str (dGet fr "TALB")
          year :=
            let d := safe_str (dGet fr "TDRC")
            if d ≠ "" then d else ""
          track := safe_str (dGet fr "TRCK")
          genre := safe_str (dGet fr "TCON")
          comment := ""
          albumartist := safe_str (dGet fr "TPE2")
          composer := safe_str (dGet fr "TCOM") } := by
  rw [get_tags.eq_def]
  simp [hk, easyLoad, easyGet, easyFrame, safe_str]

theorem get_tags_flac (p : String) (tg : Option VDict) (pics : List Pic)
    (hk : get_audio_kind p = "flac") :
    get_tags p (.flac tg pics) =
      Except.ok
        { title := safe_str (vGet (tg.getD []) "TITLE")
          artist := safe_str (vGet (tg.getD []) "ARTIST")
          album := safe_str (vGet (tg.getD []) "ALBUM")
          year := safe_str (vGet (tg.getD []) "DATE")
          track := safe_str (vGet (tg.getD []) "TRACKNUMBER")
          genre := safe_str (vGet (tg.getD []) "GENRE")
          comment := safe_str (vGet (tg.getD []) "COMMENT")
          albumartist := safe_str (vGet (tg.getD []) "ALBUMARTIST")
          composer := safe_str (vGet (tg.getD []) "COMPOSER") } := by
  rw [get_tags.eq_def]
  simp [hk]

theorem get_tags_ogg (p : String) (tg : Option VDict)
    (hk : get_audio_kind p = "ogg") :
    get_tags p (.ogg tg) =
      Except.ok
        { title := oggG (tg.getD []) "TITLE"
          artist := oggG (tg.getD []) "ARTIST"
          album := oggG (tg.getD []) "ALBUM"
          year := oggG (tg.getD []) "DATE"
          track := oggG (tg.getD []) "TRACKNUMBER"
          genre := oggG (tg.getD []) "GENRE"
          comment := oggG (tg.getD []) "COMMENT"
          albumartist := oggG (tg.getD []) "ALBUMARTIST"
          composer := oggG (tg.getD []) "COMPOSER" } := by
  rw [get_tags.eq_def]
  simp [hk]

theorem get_tags_m4a (p : String) (tg : Option MDict)
    (hk : get_audio_kind p = "m4a") :
    get_tags p (.m4a tg) =
      Except.ok
        { title := mSafeStr (dGet (tg.getD []) "©nam")
          artist := mSafeStr (dGet (tg.getD []) "©ART")
          album := mSafeStr (dGet (tg.getD []) "©alb")
          year := mSafeStr (dGet (tg.getD []) "©day")
          track :=
            match dGet (tg.getD []) "trkn" with
            | some (.pairs ((a, _) :: _)) => if a = 0 then "" else toString a
            | _ => ""
          genre := mSafeStr (dGet (tg.getD []) "©gen")
          comment := mSafeStr (dGet (tg.getD []) "©cmt")
          albumartist := mSafeStr (dGet (tg.getD []) "aART")
          composer := mSafeStr (dGet (tg.getD []) "©wrt") } := by
  rw [get_tags.eq_def]
  simp [hk]

/-- The canonical tag set a successful M4A write reads back: everything
comes back normalized; the track survives only as a nonzero decimal-digit
string, re-rendered in canonical decimal. -/
def m4aAfter (t : CanonTags) : CanonTags :=
  { t with
    track :=
      if pyIsdigit t.track then
        (if (pyIntOpt t.track).getD 0 = 0 then ""
         else toString ((pyIntOpt t.track).getD 0))
      else "" }

theorem ok_bind {e a b : Type} (x : a) (f : a → Except e b) :
    (Except.ok (ε := e) x).bind f = f x := rfl

theorem setGet_mp3 (p : String) (T : CanonTags) (c : Content)
    (hk : get_audio_kind p = "mp3") (hcm : (normTags T).comment = "") :
    (set_tags p T c).bind (get_tags p) = Except.ok (normTags T) := by
  rw [set_tags_mp3 p T c hk hcm]
  rw [ok_bind, get_tags_mp3 p _ _ hk]
  simp only [mp3W_TIT2, mp3W_TPE1, mp3W_TALB, mp3W_TDRC, mp3W_TRCK, mp3W_TCON,
    mp3W_TPE2, mp3W_TCOM, safe_str_if, if_ne_empty]
  rw [← hcm]

theorem setGet_flac (p : String) (T : CanonTags) (tg : Option VDict)
    (pics : List Pic) (hk : get_audio_kind p = "flac") :
    (set_tags p T (.flac tg pics)).bind (get_tags p) = Except.ok (normTags T) := by
  rw [set_tags_flac p T tg pics hk]
  rw [ok_bind, get_tags_flac p _ _ hk]
  simp only [Option.getD_some]
  rw [safe_str_vGet _ _ _ (vorbW_TITLE _ _), safe_str_vGet _ _ _ (vorbW_ARTIST _ _),
    safe_str_vGet _ _ _ (vorbW_ALBUM _ _), safe_str_vGet _ _ _ (vorbW_DATE _ _),
    safe_str_vGet _ _ _ (vorbW_TRACKNUMBER _ _), safe_str_vGet _ _ _ (vorbW_GENRE _ _),
    safe_str_vGet _ _ _ (vorbW_COMMENT _ _),
    safe_str_vGet _ _ _ (vorbW_ALBUMARTIST _ _),
    safe_str_vGet _ _ _ (vorbW_COMPOSER _ _)]

theorem oggG_field (d2 : VDict) (K v : String)
    (hv : vGetAll d2 K = if v = "" then [] else [v])
    (hU : upperStr K = K) (hL : lowerStr (lowerStr K) = lowerStr K) :
    oggG d2 K = v := by
  by_cases hvv : v = ""
  · have h0 : vGetAll d2 K = [] := by rw [hv, if_pos hvv]
    have hlow : vGetAll d2 (lowerStr K) = [] := by
      rw [vGetAll_congr d2 (lowerStr K) K hL, h0]
    have hh : vHas d2 K = false := by rw [vHas, h0]; rfl
    have hhl : vHas d2 (lowerStr K) = false := by rw [vHas, hlow]; rfl
    rw [oggG]
    simp [hh, hU, hhl, hvv]
  · have h1 : vGetAll d2 K = [v] := by rw [hv, if_neg hvv]
    have hh : vHas d2 K = true := by rw [vHas, h1]; rfl
    rw [oggG]
    simp only [hh, if_true]
    exact safe_str_vGet d2 K v hv

theorem setGet_ogg (p : String) (T : CanonTags) (tg : Option VDict)
    (hk : get_audio_kind p = "ogg") :
    (set_tags p T (.ogg tg)).bind (get_tags p) = Except.ok (normTags T) := by
  rw [set_tags_ogg p T tg hk]
  rw [ok_bind, get_tags_ogg p _ hk]
  simp only [Option.getD_some]
  rw [oggG_field _ _ _ (vorbW_TITLE _ _) (by decide) (by decide),
      oggG_field _ _ _ (vorbW_ARTIST _ _) (by decide) (by decide),
      oggG_field _ _ _ (vorbW_ALBUM _ _) (by decide) (by decide),
      oggG_field _ _ _ (vorbW_DATE _ _) (by decide) (by decide),
      oggG_field _ _ _ (vorbW_TRACKNUMBER _ _) (by decide) (by decide),
      oggG_field _ _ _ (vorbW_GENRE _ _) (by decide) (by decide),
      oggG_field _ _ _ (vorbW_COMMENT _ _) (by decide) (by decide),
      oggG_field _ _ _ (vorbW_ALBUMARTIST _ _) (by decide) (by decide),
      oggG_field _ _ _ (vorbW_COMPOSER _ _) (by decide) (by decide)]

theorem setGet_m4a (p : String) (T : CanonTags) (tg : Option MDict)
    (hk : get_audio_kind p = "m4a")
    (hok : pyIsdigit (normTags T).track = false ∨
      (pyIntOpt (normTags T).track).isSome = true) :
    (set_tags p T (.m4a tg)).bind (get_tags p) =
      Except.ok (m4aAfter (normTags T)) := by
  rw [set_tags_m4a p T tg hk hok]
  rw [ok_bind, get_tags_m4a p _ hk]
  simp only [Option.getD_some, m4aW_nam, m4aW_ART, m4aW_alb, m4aW_day,
    m4aW_trkn, m4aW_gen, m4aW_cmt, m4aW_aART, m4aW_wrt, mSafeStr_strAtom,
    m4aAfter]
  by_cases h : pyIsdigit (normTags T).track <;> simp [h]

/-- All nine canonical values are non-empty. -/
def allNonempty (T : CanonTags) : Prop :=
  T.title ≠ "" ∧ T.artist ≠ "" ∧ T.album ≠ "" ∧ T.year ≠ "" ∧ T.track ≠ "" ∧
  T.genre ≠ "" ∧ T.comment ≠ "" ∧ T.albumartist ≠ "" ∧ T.composer ≠ ""

instance (T : CanonTags) : Decidable (allNonempty T) := by
  unfold allNonempty; infer_instance

/-! ### Idempotence of `strip` -/

theorem pyStrip_eq_rdropWhile (s : String) :
    pyStrip s = String.mk ((s.data.dropWhile isSpaceChar).rdropWhile isSpaceChar) := rfl

theorem pyStrip_idem (s : String) : pyStrip (pyStrip s) = pyStrip s := by
  rw [pyStrip_eq_rdropWhile, pyStrip_eq_rdropWhile]
  congr 1
  set A := s.data.dropWhile isSpaceChar with hA
  show ((A.rdropWhile isSpaceChar).dropWhile isSpaceChar).rdropWhile isSpaceChar
      = A.rdropWhile isSpaceChar
  have hX : (A.rdropWhile isSpaceChar).dropWhile isSpaceChar
      = A.rdropWhile isSpaceChar := by
    rw [List.dropWhile_eq_self_iff]
    intro hl
    have hpre : A.rdropWhile isSpaceChar <+: A := List.rdropWhile_prefix _ _
    have hAfix : A.dropWhile isSpaceChar = A := by
      rw [hA]; exact List.dropWhile_idempotent _ _
    have hAhead := List.dropWhile_eq_self_iff.mp hAfix
    have h0 : 0 < A.length := lt_of_lt_of_le hl (List.IsPrefix.length_le hpre)
    have := List.IsPrefix.getElem hpre hl
    simp only [List.get_eq_getElem]
    rw [this]
    have := hAhead h0
    simpa using this
  rw [hX]
  exact List.rdropWhile_idempotent _ _

theorem normTags_idem (T : CanonTags) : normTags (normTags T) = normTags T := by
  simp [normTags, norm, pyStrip_idem]

theorem set_tags_normTags (p : String) (T : CanonTags) (c : Content) :
    set_tags p T c = set_tags p (normTags T) c := by
  rw [set_tags.eq_def, set_tags.eq_def, normTags_idem]

/-! ### Round trips of the binary encodings -/

theorem char_toNat_lt (c : Char) : c.toNat < 1114112 := by
  rcases c.valid with h | ⟨h1, h2⟩
  · exact lt_trans h (by norm_num)
  · exact h2

theorem utf8Dec_cons (b : Nat) (r : Bytes) :
    utf8Dec (b :: r) =
      match utf8DecOne b r with
      | none => none
      | some (n, rest) => (utf8Dec rest).map (fun l => Char.ofNat n :: l) := by
  rw [utf8Dec]
  split
  next h => simp [h]
  next n rest h => simp [h]

theorem utf8Dec_utf8Char (c : Char) (r : Bytes) :
    utf8Dec (utf8Char c.toNat ++ r) = (utf8Dec r).map (fun l => c :: l) := by
  have hlt := char_toNat_lt c
  set n := c.toNat with hn
  have hofn : Char.ofNat n = c := Char.ofNat_toNat c
  unfold utf8Char
  by_cases h1 : n < 0x80
  · simp only [if_pos h1, List.cons_append, List.nil_append]
    rw [utf8Dec_cons]
    simp only [utf8DecOne, if_pos h1, hofn]
  · by_cases h2 : n < 0x800
    · simp only [if_neg h1, if_pos h2, List.cons_append, List.nil_append]
      rw [utf8Dec_cons]
      have hb1 : ¬(0xC0 + n / 64 < 0x80) := by omega
      have hb2 : 0xC0 + n / 64 < 0xE0 := by omega
      have harith : (0xC0 + n / 64 - 0xC0) * 64 + (0x80 + n % 64 - 0x80) = n := by omega
      simp only [utf8DecOne, if_neg hb1, if_pos hb2, harith, hofn]
    · by_cases h3 : n < 0x10000
      · simp only [if_neg h1, if_neg h2, if_pos h3, List.cons_append, List.nil_append]
        rw [utf8Dec_cons]
        have hb1 : ¬(0xE0 + n / 4096 < 0x80) := by omega
        have hb2 : ¬(0xE0 + n / 4096 < 0xE0) := by omega
        have hb3 : 0xE0 + n / 4096 < 0xF0 := by omega
        have harith : ((0xE0 + n / 4096 - 0xE0) * 64 + (0x80 + n / 64 % 64 - 0x80)) * 64 +
            (0x80 + n % 64 - 0x80) = n := by omega
        simp only [utf8DecOne, if_neg hb1, if_neg hb2, if_pos hb3, harith, hofn]
      · simp only [if_neg h1, if_neg h2, if_neg h3, List.cons_append, List.nil_append]
        rw [utf8Dec_cons]
        have hb1 : ¬(0xF0 + n / 262144 < 0x80) := by omega
        have hb2 : ¬(0xF0 + n / 262144 < 0xE0) := by omega
        have hb3 : ¬(0xF0 + n / 262144 < 0xF0) := by omega
        have harith : (((0xF0 + n / 262144 - 0xF0) * 64 + (0x80 + n / 4096 % 64 - 0x80)) * 64 +
            (0x80 + n / 64 % 64 - 0x80)) * 64 + (0x80 + n % 64 - 0x80) = n := by omega
        simp only [utf8DecOne, if_neg hb1, if_neg hb2, if_neg hb3, harith, hofn]

theorem utf8Dec_append_chars (l : List Char) (r : Bytes) :
    utf8Dec (l.flatMap (fun c => utf8Char c.toNat) ++ r) =
      (utf8Dec r).map (fun t => l ++ t) := by
  induction l with
  | nil =>
    simp only [List.flatMap_nil, List.nil_append]
    cases utf8Dec r <;> simp
  | cons c rest ih =>
    simp only [List.flatMap_cons, List.append_assoc]
    rw [utf8Dec_utf8Char, ih]
    cases utf8Dec r <;> simp

theorem utf8DecStr_utf8Str (s : String) : utf8DecStr (utf8Str s) = some s := by
  have := utf8Dec_append_chars s.data []
  rw [List.append_nil] at this
  rw [utf8DecStr, utf8Str, this, utf8Dec]
  simp

theorem rdBe32_be32 (n : Nat) (h : n < 2 ^ 32) (r : Bytes) :
    rdBe32 (be32 n ++ r) = some (n, r) := by
  show some (((n / 2 ^ 24 % 256 * 256 + n / 2 ^ 16 % 256) * 256 + n / 2 ^ 8 % 256) * 256
    + n % 256, r) = some (n, r)
  congr 2
  omega

theorem rdBlk_enc (l r : Bytes) (h : l.length < 2 ^ 32) :
    rdBlk (be32 l.length ++ (l ++ r)) = some (l, r) := by
  rw [rdBlk, rdBe32_be32 _ h]
  have hle : l.length ≤ (l ++ r).length := by simp
  simp only [Option.bind_eq_bind, Option.some_bind, if_pos hle]
  rw [List.take_left, List.drop_left]

theorem b64d_b64e (i : Nat) (h : i < 64) : b64d (b64e i) = some i := by
  interval_cases i <;> decide

theorem b64e_ne_pad (i : Nat) (h : i < 64) : ¬(b64e i = '=') := by
  interval_cases i <;> decide

theorem b64_roundtrip (b : Bytes) (hb : bytesOK b) :
    b64decodeC (b64encodeC b) = some b := by
  induction b using b64encodeC.induct with
  | case1 => rfl
  | case2 a =>
    have ha : a < 256 := hb a (by simp)
    rw [b64encodeC, b64decodeC, b64d_b64e _ (by omega), b64d_b64e _ (by omega)]
    simp only [Option.bind_eq_bind, Option.some_bind, Option.some.injEq]
    congr 1
    omega
  | case3 a b =>
    have ha : a < 256 := hb a (by simp)
    have hbb : b < 256 := hb b (by simp)
    have hne : ¬(b64e (b % 16 * 4) = '=') := b64e_ne_pad _ (by omega)
    rw [b64encodeC]
    simp only [b64decodeC, hne, b64d_b64e _ (show a / 4 < 64 by omega),
      b64d_b64e _ (show a % 4 * 16 + b / 16 < 64 by omega),
      b64d_b64e _ (show b % 16 * 4 < 64 by omega), Option.bind_eq_bind,
      Option.some_bind, Option.some.injEq]
    have e1 : a / 4 * 4 + (a % 4 * 16 + b / 16) / 16 = a := by omega
    have e2 : (a % 4 * 16 + b / 16) % 16 * 16 + b % 16 * 4 / 4 = b := by omega
    rw [e1, e2]
  | case4 a b c r ih =>
    have ha : a < 256 := hb a (by simp)
    have hbb : b < 256 := hb b (by simp)
    have hc : c < 256 := hb c (by simp)
    have hr : bytesOK r := fun x hx => hb x (by simp [hx])
    have hne3 : ¬(b64e (b % 16 * 4 + c / 64) = '=') := b64e_ne_pad _ (by omega)
    have hne4 : ¬(b64e (c % 64) = '=') := b64e_ne_pad _ (by omega)
    rw [b64encodeC]
    rw [b64decodeC.eq_4 _ _ _ _ _ (fun h3 _ _ => hne3 h3) (fun h4 _ => hne4 h4)]
    simp only [b64d_b64e _ (show a / 4 < 64 by omega),
      b64d_b64e _ (show a % 4 * 16 + b / 16 < 64 by omega),
      b64d_b64e _ (show b % 16 * 4 + c / 64 < 64 by omega),
      b64d_b64e _ (show c % 64 < 64 by omega), ih hr, Option.bind_eq_bind,
      Option.some_bind, Option.some.injEq]
    have e1 : a / 4 * 4 + (a % 4 * 16 + b / 16) / 16 = a := by omega
    have e2 : (a % 4 * 16 + b / 16) % 16 * 16 + (b % 16 * 4 + c / 64) / 4 = b := by omega
    have e3 : (b % 16 * 4 + c / 64) % 4 * 64 + c % 64 = c := by omega
    rw [e1, e2, e3]

theorem bytesOK_append (a b : Bytes) (ha : bytesOK a) (hb : bytesOK b) :
    bytesOK (a ++ b) := by
  intro x hx
  rcases List.mem_append.mp hx with h | h
  · exact ha x h
  · exact hb x h

theorem bytesOK_be32 (n : Nat) : bytesOK (be32 n) := by
  intro x hx
  simp [be32] at hx
  rcases hx with h | h | h | h <;> omega

theorem bytesOK_utf8Char (n : Nat) (h : n < 1114112) : bytesOK (utf8Char n) := by
  intro x hx
  unfold utf8Char at hx
  split at hx
  · simp at hx; omega
  · split at hx
    · simp at hx; rcases hx with h | h <;> omega
    · split at hx
      · simp at hx; rcases hx with h | h | h <;> omega
      · simp at hx; rcases hx with h | h | h | h <;> omega

theorem bytesOK_utf8Str (s : String) : bytesOK (utf8Str s) := by
  intro x hx
  rw [utf8Str] at hx
  rcases List.mem_flatMap.mp hx with ⟨c, _, hc⟩
  exact bytesOK_utf8Char c.toNat (char_toNat_lt c) x hc

theorem bytesOK_picWrite (p : Pic) (hd : bytesOK p.data) : bytesOK (picWrite p) := by
  unfold picWrite
  simp only [List.append_assoc]
  refine bytesOK_append _ _ (bytesOK_be32 _) (bytesOK_append _ _ (bytesOK_be32 _)
    (bytesOK_append _ _ (bytesOK_utf8Str _) (bytesOK_append _ _ (bytesOK_be32 _)
    (bytesOK_append _ _ (bytesOK_utf8Str _) (bytesOK_append _ _ (bytesOK_be32 _)
    (bytesOK_append _ _ (bytesOK_be32 _) (bytesOK_append _ _ (bytesOK_be32 _)
    (bytesOK_append _ _ (bytesOK_be32 _) (bytesOK_append _ _ (bytesOK_be32 _) hd)))))))))

theorem utf8Char_length_le (n : Nat) : (utf8Char n).length ≤ 4 := by
  unfold utf8Char
  split
  · simp
  · split
    · simp
    · split <;> simp

theorem utf8Str_length_le (s : String) :
    (utf8Str s).length ≤ 4 * s.data.length := by
  rw [utf8Str]
  induction s.data with
  | nil => simp
  | cons c rest ih =>
    rw [List.flatMap_cons, List.length_append]
    have := utf8Char_length_le c.toNat
    simp only [List.length_cons]
    omega

theorem picParse_picWrite (p : Pic) (ht : p.typ < 2 ^ 32) (hw : p.width < 2 ^ 32)
    (hh : p.height < 2 ^ 32) (hdep : p.depth < 2 ^ 32) (hcol : p.colors < 2 ^ 32)
    (hm : (utf8Str p.mime).length < 2 ^ 32) (hd : (utf8Str p.desc).length < 2 ^ 32)
    (hdat : p.data.length < 2 ^ 32) : picParse (picWrite p) = some p := by
  unfold picWrite picParse
  simp only [List.append_assoc]
  rw [rdBe32_be32 _ ht]
  simp only [Option.bind_eq_bind, Option.some_bind]
  rw [rdBlk_enc _ _ hm]
  simp only [Option.some_bind]
  rw [rdBlk_enc _ _ hd]
  simp only [Option.some_bind]
  rw [rdBe32_be32 _ hw]
  simp only [Option.some_bind]
  rw [rdBe32_be32 _ hh]
  simp only [Option.some_bind]
  rw [rdBe32_be32 _ hdep]
  simp only [Option.some_bind]
  rw [rdBe32_be32 _ hcol]
  simp only [Option.some_bind]
  rw [show (be32 p.data.length ++ p.data : Bytes)
      = be32 p.data.length ++ (p.data ++ []) by simp]
  rw [rdBlk_enc _ _ hdat]
  simp only [Option.some_bind]
  rw [utf8DecStr_utf8Str, utf8DecStr_utf8Str]
  simp only [Option.some_bind]

/-! ### Cover writes: contents and read-back -/

theorem guess_mime_cases (d : Bytes) :
    guess_mime_from_bytes d = "image/jpeg" ∨ guess_mime_from_bytes d = "image/png" := by
  unfold guess_mime_from_bytes
  split
  · exact Or.inl rfl
  · split
    · exact Or.inr rfl
    · exact Or.inl rfl

theorem guess_mime_ne_empty (d : Bytes) : guess_mime_from_bytes d ≠ "" := by
  rcases guess_mime_cases d with h | h <;> rw [h] <;> decide

/-- The MIME `set_cover_bytes` actually records: the argument, or the sniffed
fallback when the argument is empty. -/
def mimeOr (mime : String) (data : Bytes) : String :=
  if mime ≠ "" then mime else guess_mime_from_bytes data

theorem mimeOr_ne_empty (mime : String) (data : Bytes) : mimeOr mime data ≠ "" := by
  rw [mimeOr]
  by_cases h : mime = ""
  · simp [h, guess_mime_ne_empty]
  · simp [h]

theorem utf8Str_mimeOr_lt (mime : String) (data : Bytes)
    (h : mime.length < 2 ^ 28) : (utf8Str (mimeOr mime data)).length < 2 ^ 32 := by
  rw [mimeOr]
  by_cases hm : mime = ""
  · simp only [hm]
    rcases guess_mime_cases data with hg | hg <;> simp [hg] <;> decide
  · simp only [hm, ne_eq, not_false_iff, if_pos]
    have := utf8Str_length_le mime
    have hlen : mime.data.length = mime.length := rfl
    omega

theorem set_cover_mp3 (p : String) (data : Bytes) (mime : String)
    (ot : Option Id3Tag) (hk : get_audio_kind p = "mp3") :
    set_cover_bytes p data mime (.mp3 ot) =
      Except.ok (.mp3 (some ⟨(ot.getD ⟨[], []⟩).frames,
        [⟨mimeOr mime data, "Cover", 3, data⟩]⟩)) := by
  rw [set_cover_bytes.eq_def]
  simp [hk, mimeOr]

theorem set_cover_flac (p : String) (data : Bytes) (mime : String)
    (tg : Option VDict) (pics : List Pic) (hk : get_audio_kind p = "flac") :
    set_cover_bytes p data mime (.flac tg pics) =
      Except.ok (.flac tg [mkPic mime data]) := by
  rw [set_cover_bytes.eq_def]
  simp [hk]

theorem set_cover_ogg (p : String) (data : Bytes) (mime : String)
    (tg : Option VDict) (hk : get_audio_kind p = "ogg") :
    set_cover_bytes p data mime (.ogg tg) =
      Except.ok (.ogg (some (oggSetCover (tg.getD [])
        (b64encodeS (picWrite (mkPic mime data)))))) := by
  rw [set_cover_bytes.eq_def]
  simp [hk]

theorem vGetAll_oggSetCover (tgs : VDict) (b64 k : String)
    (h : lowerStr k = lowerStr "METADATA_BLOCK_PICTURE") :
    vGetAll (oggSetCover tgs b64) k = [b64] := by
  rw [oggSetCover, vSet, vGetAll_append, vGetAll_vDel_match _ _ _ h]
  have hm : vMatch "METADATA_BLOCK_PICTURE" k = true := (vMatch_iff _ _).mpr h.symm
  simp [vGetAll, hm]

theorem dGet_oggSetCover_self (tgs : VDict) (b64 : String) :
    dGet (oggSetCover tgs b64) "METADATA_BLOCK_PICTURE" = some b64 := by
  rw [oggSetCover, vSet, dGet_append, dGet_vDel_match _ _ _ rfl]
  simp [dGet_cons]

theorem dGet_oggSetCover_low (tgs : VDict) (b64 : String) :
    dGet (oggSetCover tgs b64) "metadata_block_picture" = none := by
  rw [oggSetCover, vSet, dGet_append, dGet_vDel_match _ _ _ (by decide)]
  rfl

theorem oggFindB64_oggSetCover (tgs : VDict) (b64 : String) :
    oggFindB64 (oggSetCover tgs b64) = some b64 := by
  have h := vGetAll_oggSetCover tgs b64 "metadata_block_picture" (by decide)
  have hv : vGet (oggSetCover tgs b64) "metadata_block_picture" = some [b64] := by
    rw [vGet.eq_def, h]
  rw [oggFindB64.eq_def, hv]

theorem set_cover_m4a (p : String) (data : Bytes) (mime : String)
    (tg : Option MDict) (hk : get_audio_kind p = "m4a") :
    set_cover_bytes p data mime (.m4a tg) =
      Except.ok (.m4a (some (dSet (tg.getD []) "covr"
        (.covers [⟨data, strEndsWith (lowerStr mime) "png"⟩])))) := by
  rw [set_cover_bytes.eq_def]
  simp [hk]

theorem b64encodeS_cons_ne_empty (a b c : Nat) (r : Bytes) :
    b64encodeS (a :: b :: c :: r) ≠ "" := by
  rw [b64encodeS, b64encodeC]
  intro h
  have := congrArg String.data h
  simp at this

theorem picWrite_shape (q : Pic) :
    ∃ x1 x2 x3 r, picWrite q = x1 :: x2 :: x3 :: r := ⟨_, _, _, _, rfl⟩

theorem b64decodeS_b64encodeS (b : Bytes) (hb : bytesOK b) :
    b64decodeS (b64encodeS b) = some b := by
  rw [b64decodeS, b64encodeS]
  exact b64_roundtrip b hb

theorem picParse_mkPic (mime : String) (data : Bytes)
    (hdata : data.length < 2 ^ 32) (hmime : mime.length < 2 ^ 28) :
    picParse (picWrite (mkPic mime data)) = some (mkPic mime data) := by
  apply picParse_picWrite
  · show (3 : Nat) < 2 ^ 32; decide
  · show (0 : Nat) < 2 ^ 32; decide
  · show (0 : Nat) < 2 ^ 32; decide
  · show (0 : Nat) < 2 ^ 32; decide
  · show (0 : Nat) < 2 ^ 32; decide
  · exact utf8Str_mimeOr_lt mime data hmime
  · show (utf8Str "Cover").length < 2 ^ 32; decide
  · exact hdata

/-- The cover entry value stored for Ogg, decoded back to its picture. -/
theorem ogg_b64_decodes (mime : String) (data : Bytes) (hok : bytesOK data)
    (hdata : data.length < 2 ^ 32) (hmime : mime.length < 2 ^ 28) :
    (b64decodeS (b64encodeS (picWrite (mkPic mime data)))).bind picParse =
      some (mkPic mime data) := by
  rw [b64decodeS_b64encodeS _ (bytesOK_picWrite _ hok), Option.some_bind]
  exact picParse_mkPic mime data hdata hmime

theorem get_cover_mp3 (p : String) (ot : Option Id3Tag)
    (hk : get_audio_kind p = "mp3") :
    get_cover_bytes p (.mp3 ot) =
      match ot with
      | none => Except.ok none
      | some t =>
          match t.apics with
          | [] => Except.ok none
          | a :: _ =>
              Except.ok (some (a.data,
                if a.mime ≠ "" then a.mime else guess_mime_from_bytes a.data)) := by
  rw [get_cover_bytes.eq_def]
  cases ot with
  | none => simp [hk]
  | some t => cases t.apics <;> simp [hk]

theorem get_cover_flac (p : String) (tg : Option VDict) (pics : List Pic)
    (hk : get_audio_kind p = "flac") :
    get_cover_bytes p (.flac tg pics) =
      match pics with
      | [] => Except.ok none
      | q :: _ =>
          Except.ok (some (q.data,
            if q.mime ≠ "" then q.mime else guess_mime_from_bytes q.data)) := by
  rw [get_cover_bytes.eq_def]
  cases pics <;> simp [hk]

theorem get_cover_ogg (p : String) (tg : Option VDict)
    (hk : get_audio_kind p = "ogg") :
    get_cover_bytes p (.ogg tg) =
      match oggFindB64 (tg.getD []) with
      | none => Except.ok none
      | some b64 =>
          if b64 = "" then Except.ok none
          else
            match (b64decodeS b64).bind picParse with
            | none => Except.ok none
            | some pic =>
                Except.ok (some (pic.data,
                  if pic.mime ≠ "" then pic.mime else guess_mime_from_bytes pic.data)) := by
  rw [get_cover_bytes.eq_def]
  simp [hk]

theorem get_cover_m4a (p : String) (tg : Option MDict)
    (hk : get_audio_kind p = "m4a") :
    get_cover_bytes p (.m4a tg) =
      match tg with
      | none => Except.ok none
      | some tgs =>
          match dGet tgs "covr" with
          | some (.covers (cv :: _)) =>
              Except.ok (some (cv.data, if cv.isPng then "image/png" else "image/jpeg"))
          | _ => Except.ok none := by
  rw [get_cover_bytes.eq_def]
  cases tg with
  | none => simp [hk]
  | some tgs => simp [hk]

theorem ogg_cover_after_set (p : String) (data : Bytes) (mime : String)
    (tg : Option VDict) (hk : get_audio_kind p = "ogg") (hok : bytesOK data)
    (hdata : data.length < 2 ^ 32) (hmime : mime.length < 2 ^ 28) :
    (set_cover_bytes p data mime (.ogg tg)).bind (get_cover_bytes p) =
      Except.ok (some (data, mimeOr mime data)) := by
  rw [set_cover_ogg p data mime tg hk, ok_bind, get_cover_ogg p _ hk]
  obtain ⟨x1, x2, x3, r, hshape⟩ := picWrite_shape (mkPic mime data)
  have hb64ne : b64encodeS (picWrite (mkPic mime data)) ≠ "" := by
    rw [hshape]; exact b64encodeS_cons_ne_empty _ _ _ _
  simp only [Option.getD_some, oggFindB64_oggSetCover]
  simp only [if_neg hb64ne]
  rw [ogg_b64_decodes mime data hok hdata hmime]
  have hmime2 : (mkPic mime data).mime = mimeOr mime data := rfl
  have hdata2 : (mkPic mime data).data = data := rfl
  simp only [hmime2, hdata2, ne_eq, mimeOr_ne_empty mime data, not_false_iff,
    if_pos]

theorem mp3_cover_after_set (p : String) (data : Bytes) (mime : String)
    (ot : Option Id3Tag) (hk : get_audio_kind p = "mp3") :
    (set_cover_bytes p data mime (.mp3 ot)).bind (get_cover_bytes p) =
      Except.ok (some (data, mimeOr mime data)) := by
  rw [set_cover_mp3 p data mime ot hk, ok_bind, get_cover_mp3 p _ hk]
  simp [mimeOr_ne_empty]

theorem flac_cover_after_set (p : String) (data : Bytes) (mime : String)
    (tg : Option VDict) (pics : List Pic) (hk : get_audio_kind p = "flac") :
    (set_cover_bytes p data mime (.flac tg pics)).bind (get_cover_bytes p) =
      Except.ok (some (data, mimeOr mime data)) := by
  rw [set_cover_flac p data mime tg pics hk, ok_bind, get_cover_flac p _ _ hk]
  have h1 : (mkPic mime data).mime = mimeOr mime data := rfl
  have h2 : (mkPic mime data).data = data := rfl
  simp [h1, h2, mimeOr_ne_empty]

theorem m4a_cover_after_set (p : String) (data : Bytes) (mime : String)
    (tg : Option MDict) (hk : get_audio_kind p = "m4a") :
    (set_cover_bytes p data mime (.m4a tg)).bind (get_cover_bytes p) =
      Except.ok (some (data,
        if strEndsWith (lowerStr mime) "png" then "image/png" else "image/jpeg")) := by
  rw [set_cover_m4a p data mime tg hk, ok_bind, get_cover_m4a p _ hk]
  simp [dGet_dSet_self]

/-! ### The front-cover entries a container holds

An observation function for the at-most-one-cover invariant: every cover
entry present in the container, by kind (APIC frames, FLAC picture blocks,
values stored under any case-variant of `METADATA_BLOCK_PICTURE` — decoded
when possible — and `covr` atoms). -/

def coverEntries (path : String) (c : Content) : List (Option Bytes) :=
  let kind := get_audio_kind path
  if kind = "mp3" then
    match c with
    | .mp3 (some t) => t.apics.map (fun a => some a.data)
    | _ => []
  else if kind = "flac" then
    match c with
    | .flac _ pics => pics.map (fun q => some q.data)
    | _ => []
  else if kind = "ogg" then
    match c with
    | .ogg tg =>
        (vGetAll (tg.getD []) "metadata_block_picture").map
          (fun v => ((b64decodeS v).bind picParse).map Pic.data)
    | _ => []
  else if kind = "m4a" then
    match c with
    | .m4a (some tgs) =>
        match dGet tgs "covr" with
        | some (.covers l) => l.map (fun cv => some cv.data)
        | _ => []
    | _ => []
  else []

theorem coverEntries_mp3_after (p : String) (data : Bytes) (mime : String)
    (ot : Option Id3Tag) (hk : get_audio_kind p = "mp3") (c2 : Content)
    (hset : set_cover_bytes p data mime (.mp3 ot) = Except.ok c2) :
    coverEntries p c2 = [some data] := by
  rw [set_cover_mp3 p data mime ot hk] at hset
  injection hset with h
  rw [← h, coverEntries]
  simp [hk]

theorem coverEntries_flac_after (p : String) (data : Bytes) (mime : String)
    (tg : Option VDict) (pics : List Pic) (hk : get_audio_kind p = "flac")
    (c2 : Content)
    (hset : set_cover_bytes p data mime (.flac tg pics) = Except.ok c2) :
    coverEntries p c2 = [some data] := by
  rw [set_cover_flac p data mime tg pics hk] at hset
  injection hset with h
  rw [← h, coverEntries]
  simp [hk]
  rfl

theorem coverEntries_ogg_after (p : String) (data : Bytes) (mime : String)
    (tg : Option VDict) (hk : get_audio_kind p = "ogg") (hok : bytesOK data)
    (hdata : data.length < 2 ^ 32) (hmime : mime.length < 2 ^ 28) (c2 : Content)
    (hset : set_cover_bytes p data mime (.ogg tg) = Except.ok c2) :
    coverEntries p c2 = [some data] := by
  rw [set_cover_ogg p data mime tg hk] at hset
  injection hset with h
  rw [← h, coverEntries]
  simp only [hk]
  rw [if_neg (show ¬(("ogg" : String) = "mp3") by decide),
    if_neg (show ¬(("ogg" : String) = "flac") by decide), if_true]
  simp only [Option.getD_some,
    vGetAll_oggSetCover (tg.getD []) (b64encodeS (picWrite (mkPic mime data)))
      "metadata_block_picture" (by decide),
    List.map_cons, List.map_nil]
  rw [ogg_b64_decodes mime data hok hdata hmime]
  rfl

theorem coverEntries_m4a_after (p : String) (data : Bytes) (mime : String)
    (tg : Option MDict) (hk : get_audio_kind p = "m4a") (c2 : Content)
    (hset : set_cover_bytes p data mime (.m4a tg) = Except.ok c2) :
    coverEntries p c2 = [some data] := by
  rw [set_cover_m4a p data mime tg hk] at hset
  injection hset with h
  rw [← h, coverEntries]
  simp only [hk]
  rw [if_neg (show ¬(("m4a" : String) = "mp3") by decide),
    if_neg (show ¬(("m4a" : String) = "flac") by decide),
    if_neg (show ¬(("m4a" : String) = "ogg") by decide), if_true]
  simp [dGet_dSet_self]

/-! ### Structure of the path suffix (for format classification) -/

theorem toNat_ofNat_valid (n : Nat) (h : n.isValidChar) :
    (Char.ofNat n).toNat = n := by
  rw [Char.ofNat, dif_pos h]
  rfl

theorem lowerChar_dot : lowerChar '.' = '.' := rfl

theorem lowerChar_ne_dot (c : Char) (h : c ≠ '.') : lowerChar c ≠ '.' := by
  unfold lowerChar
  split
  next hc =>
    intro heq
    have hle : (65 : Nat) ≤ c.toNat := by
      have := hc.1
      simp [Char.le_def] at this
      exact this
    have hge : c.toNat ≤ 90 := by
      have := hc.2
      simp [Char.le_def] at this
      exact this
    have hval : (c.toNat + 32).isValidChar := Or.inl (by omega)
    have := congrArg Char.toNat heq
    rw [toNat_ofNat_valid _ hval] at this
    have hdot : ('.').toNat = 46 := rfl
    omega
  next => exact h

theorem rfindDot_none (l : List Char) (h : rfindDot l = none) : '.' ∉ l := by
  induction l with
  | nil => simp
  | cons c rest ih =>
    rw [rfindDot] at h
    intro hmem
    rcases List.mem_cons.mp hmem with rfl | hmem2
    · revert h
      cases hr : rfindDot rest <;> simp [hr]
    · revert h
      cases hr : rfindDot rest with
      | some j => simp [hr]
      | none => intro h; exact ih hr hmem2

theorem rfindDot_spec (l : List Char) (i : Nat) (h : rfindDot l = some i) :
    i < l.length ∧ l.drop i = '.' :: l.drop (i + 1) ∧ '.' ∉ l.drop (i + 1) := by
  induction l generalizing i with
  | nil => cases h
  | cons c rest ih =>
    rw [rfindDot] at h
    cases hr : rfindDot rest with
    | some j =>
      rw [hr] at h
      injection h with h1
      cases h1
      obtain ⟨hj1, hj2, hj3⟩ := ih j hr
      refine ⟨by simp; omega, ?_, ?_⟩
      · simpa using hj2
      · simpa using hj3
    | none =>
      rw [hr] at h
      by_cases hc : c = '.'
      · rw [if_pos hc] at h
        injection h with h1
        cases h1
        refine ⟨by simp, by simp [hc], by simpa using rfindDot_none rest hr⟩
      · rw [if_neg hc] at h
        cases h

theorem pathSuffixChars_structure (p : String) :
    pathSuffixChars p = [] ∨
      ∃ l, pathSuffixChars p = '.' :: l ∧ '.' ∉ l ∧ l ≠ [] := by
  rw [pathSuffixChars]
  cases hr : rfindDot (lastComp p.data) with
  | none => exact Or.inl rfl
  | some i =>
    by_cases hcond : 0 < i ∧ i < (lastComp p.data).length - 1
    · right
      obtain ⟨h1, h2, h3⟩ := rfindDot_spec (lastComp p.data) i hr
      refine ⟨(lastComp p.data).drop (i + 1), ?_, h3, ?_⟩
      · simp only [if_pos hcond]
        exact h2
      · intro hnil
        have := congrArg List.length hnil
        simp [List.length_drop] at this
        omega
    · exact Or.inl (by simp [if_neg hcond])

/-- The lower-cased suffix determines the audio kind. -/
theorem get_audio_kind_eq (p : String) :
    get_audio_kind p =
      String.mk (((lowerStr (pathSuffix p)).data).dropWhile (fun c => c == '.')) := rfl

theorem classify_ext (p q : String)
    (h : lowerStr (pathSuffix p) = lowerStr (pathSuffix q)) :
    classify p = classify q := by
  rw [classify, classify, get_audio_kind_eq, get_audio_kind_eq, h]

theorem get_audio_kind_of_suffix (p : String) (e : String)
    (h : lowerStr (pathSuffix p) = e) :
    get_audio_kind p = String.mk (e.data.dropWhile (fun c => c == '.')) := by
  rw [get_audio_kind_eq, h]

/-- A supported kind forces the lower-cased suffix: with a dot-free non-empty
tail after the leading dot, stripping the dot is invertible. -/
theorem lowerSuffix_of_kind (p : String) (e : List Char)
    (hk : get_audio_kind p = String.mk e) (hne : e ≠ []) :
    lowerStr (pathSuffix p) = String.mk ('.' :: e) := by
  rcases pathSuffixChars_structure p with h | ⟨l, hl, hldot, hlne⟩
  · have h0 : get_audio_kind p = String.mk [] := by
      rw [get_audio_kind, h]
      rfl
    rw [h0] at hk
    have hdk := congrArg String.data hk
    simp at hdk
    exact absurd hdk hne
  · have hdata : (lowerStr (pathSuffix p)).data = '.' :: l.map lowerChar := by
      rw [pathSuffix, lowerStr]
      simp [hl, lowerChar_dot]
    have hkind : get_audio_kind p = String.mk (l.map lowerChar) := by
      rw [get_audio_kind, hl]
      cases hll : l with
      | nil => exact absurd hll hlne
      | cons x xs =>
        have hx : x ≠ '.' := by
          intro hx
          exact hldot (hll ▸ hx ▸ List.mem_cons_self x xs)
        have hlx : ¬(lowerChar x == '.') = true := by
          simp only [beq_iff_eq]
          exact lowerChar_ne_dot x hx
        simp only [List.map_cons, List.dropWhile_cons, lowerChar_dot]
        norm_num
        rw [if_neg (lowerChar_ne_dot x hx)]
    rw [hkind] at hk
    have hlmap : l.map lowerChar = e := by
      have := congrArg String.data hk
      simpa using this
    rw [lowerStr, pathSuffix]
    simp only [hl, List.map_cons, lowerChar_dot, hlmap]

/-! ## The claims -/

/-- C9: MIME sniffing is total and matches the two signatures: bytes starting
`FF D8 FF` sniff as JPEG, bytes starting with the PNG signature sniff as PNG,
and everything else falls back to JPEG. -/
theorem c9_sniff_mime (data : Bytes) :
    ([0xFF, 0xD8, 0xFF].isPrefixOf data = true →
      guess_mime_from_bytes data = "image/jpeg") ∧
    ([0x89, 0x50, 0x4E, 0x47, 0x0D, 0x0A, 0x1A, 0x0A].isPrefixOf data = true →
      guess_mime_from_bytes data = "image/png") ∧
    ([0xFF, 0xD8, 0xFF].isPrefixOf data = false →
      [0x89, 0x50, 0x4E, 0x47, 0x0D, 0x0A, 0x1A, 0x0A].isPrefixOf data = false →
      guess_mime_from_bytes data = "image/jpeg") := by
  refine ⟨fun h => ?_, fun h => ?_, fun h1 h2 => ?_⟩
  · rw [guess_mime_from_bytes, if_pos h]
  · have hnj : ¬([0xFF, 0xD8, 0xFF].isPrefixOf data = true) := by
      obtain ⟨t, rfl⟩ := List.isPrefixOf_iff_prefix.mp h
      intro hj
      have := List.isPrefixOf_iff_prefix.mp hj
      rcases this with ⟨u, hu⟩
      have := congrArg (fun l => l.get? 0) hu
      simp at this
    rw [guess_mime_from_bytes, if_neg hnj, if_pos h]
  · rw [guess_mime_from_bytes, if_neg (by simp [h1]), if_neg (by simp [h2])]

/-- C9 (witness): the sniffer at concrete inputs, through the theorem. -/
theorem c9_sniff_mime_witness :
    guess_mime_from_bytes [0xFF, 0xD8, 0xFF, 0x10] = "image/jpeg" ∧
    guess_mime_from_bytes [0x89, 0x50, 0x4E, 0x47, 0x0D, 0x0A, 0x1A, 0x0A, 1] =
      "image/png" ∧
    guess_mime_from_bytes [] = "image/jpeg" :=
  ⟨(c9_sniff_mime _).1 (by decide),
   (c9_sniff_mime _).2.1 (by decide),
   (c9_sniff_mime _).2.2 (by decide) (by decide)⟩

/-- C10: `set_tags` strips every canonical value before deciding between
write and delete: two inputs with the same stripped values write identically,
`set_tags` factors through normalization, and (on a FLAC file) the values a
subsequent `get_tags` returns are the stripped ones. -/
theorem c10_whitespace_normalization (p : String) (c : Content)
    (T U : CanonTags) (h : normTags T = normTags U) :
    set_tags p T c = set_tags p U c ∧
    set_tags p T c = set_tags p (normTags T) c ∧
    (∀ tg pics, get_audio_kind p = "flac" → c = .flac tg pics →
      (set_tags p T c).bind (get_tags p) = Except.ok (normTags T)) := by
  refine ⟨?_, set_tags_normTags p T c, ?_⟩
  · rw [set_tags.eq_def, set_tags.eq_def, h]
  · rintro tg pics hk rfl
    exact setGet_flac p T tg pics hk

/-- C10 (witness): a whitespace-only artist is treated like an empty one, a
padded title is stored trimmed, and the read-back shows the trimmed forms. -/
theorem c10_whitespace_normalization_witness :
    set_tags "y.flac" ⟨"  a  ", " ", "b", "", "1", "g", "c", "d", "e"⟩
        (.flac none []) =
      set_tags "y.flac" ⟨"a", "", "b", "", "1", "g", "c", "d", "e"⟩
        (.flac none []) ∧
    (set_tags "y.flac" ⟨"  a  ", " ", "b", "", "1", "g", "c", "d", "e"⟩
        (.flac none [])).bind (get_tags "y.flac") =
      Except.ok ⟨"a", "", "b", "", "1", "g", "c", "d", "e"⟩ := by
  constructor
  · exact (c10_whitespace_normalization "y.flac" (.flac none []) _ _ (by decide)).1
  · have := (c10_whitespace_normalization "y.flac" (.flac none [])
      ⟨"  a  ", " ", "b", "", "1", "g", "c", "d", "e"⟩
      ⟨"a", "", "b", "", "1", "g", "c", "d", "e"⟩ (by decide)).2.2 none [] rfl rfl
    rw [this]
    decide

/-- C3 (counterexample): `get_tags` does raise on a malformed file of a
supported extension.  In v2 the FLAC/Ogg/M4A branches run the mutagen loader
outside any `try`; on a malformed `.flac` the call propagates the parse
error instead of returning the all-empty tag set. -/
theorem c3_counterexample :
    get_audio_kind "a.flac" = "flac" ∧
    get_tags "a.flac" Content.malformed =
      Except.error "No se pudo abrir el archivo" :=
  ⟨by decide, by decide⟩

/-- C3 (amended): read robustness as the code provides it.  MP3 reads never
fail (malformed files read as all-empty); absent tag dictionaries read as
all-empty for every kind; `get_cover_bytes` returns `none` for an absent
cover in every kind and for a malformed Ogg cover entry; and v1's
`get_tags`, whose body sits in a catch-all `try`, maps even a malformed
file to the all-empty tag set. -/
theorem c3_read_robustness :
    (∀ p c, get_audio_kind p = "mp3" → ∃ t, get_tags p c = Except.ok t) ∧
    (∀ p, get_audio_kind p = "mp3" →
      get_tags p Content.malformed = Except.ok emptyTags) ∧
    (∀ p pics, get_audio_kind p = "flac" →
      get_tags p (.flac none pics) = Except.ok emptyTags) ∧
    (∀ p, get_audio_kind p = "ogg" →
      get_tags p (.ogg none) = Except.ok emptyTags) ∧
    (∀ p, get_audio_kind p = "m4a" →
      get_tags p (.m4a none) = Except.ok emptyTags) ∧
    (∀ p, get_audio_kind p = "mp3" →
      get_cover_bytes p (.mp3 none) = Except.ok none) ∧
    (∀ p fr, get_audio_kind p = "mp3" →
      get_cover_bytes p (.mp3 (some ⟨fr, []⟩)) = Except.ok none) ∧
    (∀ p tg, get_audio_kind p = "flac" →
      get_cover_bytes p (.flac tg []) = Except.ok none) ∧
    (∀ p tg, get_audio_kind p = "ogg" → oggFindB64 (tg.getD []) = none →
      get_cover_bytes p (.ogg tg) = Except.ok none) ∧
    (∀ p tg b64, get_audio_kind p = "ogg" →
      oggFindB64 (tg.getD []) = some b64 → b64 ≠ "" →
      (b64decodeS b64).bind picParse = none →
      get_cover_bytes p (.ogg tg) = Except.ok none) ∧
    (∀ p tgs, get_audio_kind p = "m4a" → dGet tgs "covr" = none →
      get_cover_bytes p (.m4a (some tgs)) = Except.ok none) ∧
    (∀ p, v1_get_tags p Content.malformed = emptyTags) := by
  refine ⟨?_, ?_, ?_, ?_, ?_, ?_, ?_, ?_, ?_, ?_, ?_, ?_⟩
  · intro p c h
    rw [get_tags.eq_def]
    simp only [h]
    exact ⟨_, rfl⟩
  · intro p h
    rw [get_tags.eq_def]
    simp [h, easyLoad, easyGet, easyFrame, safe_str, emptyTags]
  · intro p pics h
    rw [get_tags_flac p none pics h]
    simp [safe_str, vGet, vGetAll, emptyTags]
  · intro p h
    rw [get_tags_ogg p none h]
    simp [oggG, vHas, vGetAll, emptyTags]
  · intro p h
    rw [get_tags_m4a p none h]
    simp [mSafeStr, emptyTags]
  · intro p h
    rw [get_cover_mp3 p none h]
  · intro p fr h
    rw [get_cover_mp3 p _ h]
  · intro p tg h
    rw [get_cover_flac p tg [] h]
  · intro p tg h hfind
    rw [get_cover_ogg p tg h, hfind]
  · intro p tg b64 h hfind hne hdec
    rw [get_cover_ogg p tg h, hfind]
    simp only [if_neg hne, hdec]
  · intro p tgs h hcov
    rw [get_cover_m4a p _ h]
    simp [hcov]
  · intro p
    rw [v1_get_tags]
    repeat' split
    all_goals try rfl
    all_goals simp

/-- C3 (witness): the amended theorem at concrete inputs — a malformed
`.mp3` reads all-empty, a tag-less FLAC reads all-empty, a cover-less FLAC
and an Ogg with an undecodable `METADATA_BLOCK_PICTURE` both give no
cover, and v1 reads a malformed file as all-empty. -/
theorem c3_read_robustness_witness :
    get_tags "b.mp3" Content.malformed = Except.ok emptyTags ∧
    get_tags "b.flac" (.flac none []) = Except.ok emptyTags ∧
    get_cover_bytes "b.flac" (.flac none []) = Except.ok none ∧
    get_cover_bytes "b.ogg" (.ogg (some [("METADATA_BLOCK_PICTURE", "x")])) =
      Except.ok none ∧
    v1_get_tags "b.flac" Content.malformed = emptyTags :=
  ⟨c3_read_robustness.2.1 "b.mp3" (by decide),
   c3_read_robustness.2.2.1 "b.flac" [] (by decide),
   c3_read_robustness.2.2.2.2.2.2.2.1 "b.flac" none (by decide),
   c3_read_robustness.2.2.2.2.2.2.2.2.2.1 "b.ogg" (some [("METADATA_BLOCK_PICTURE", "x")])
     "x" (by decide) (by decide) (by decide) (by decide),
   c3_read_robustness.2.2.2.2.2.2.2.2.2.2.2 "b.flac"⟩

/-- C8 (counterexample): operations on an unsupported extension do not all
fail fast.  On `a.txt` the classifier yields `Unsupported`, yet `get_tags`
returns the all-empty tag set and `get_cover_bytes` returns `none` instead
of a classification error. -/
theorem c8_counterexample :
    classify "a.txt" = ContainerKind.unsupported ∧
    get_tags "a.txt" Content.malformed = Except.ok emptyTags ∧
    get_cover_bytes "a.txt" Content.malformed = Except.ok none :=
  ⟨by decide, by decide, by decide⟩

/-- C8 (amended): the container kind is a pure function of the path's
lower-cased extension, with `.mp3/.flac/.ogg/.m4a` mapping to the four
supported kinds and anything else to `Unsupported`; on an unsupported path
the write operations fail fast with the unsupported-format error, while the
read operations return the all-empty tag set and `none` rather than an
error. -/
theorem c8_classification (p : String) :
    (∀ q, lowerStr (pathSuffix p) = lowerStr (pathSuffix q) →
      classify p = classify q) ∧
    (lowerStr (pathSuffix p) = ".mp3" → classify p = .frameTagged) ∧
    (lowerStr (pathSuffix p) = ".flac" → classify p = .blockComment) ∧
    (lowerStr (pathSuffix p) = ".ogg" → classify p = .oggComment) ∧
    (lowerStr (pathSuffix p) = ".m4a" → classify p = .atomBox) ∧
    (lowerStr (pathSuffix p) ∉ [".mp3", ".flac", ".ogg", ".m4a"] →
      classify p = .unsupported) ∧
    (∀ T c, classify p = .unsupported →
      set_tags p T c = Except.error "Formato no soportado para escribir tags.") ∧
    (∀ d m c, classify p = .unsupported →
      set_cover_bytes p d m c =
        Except.error "Formato no soportado para escribir carátula.") ∧
    (∀ c, classify p = .unsupported → get_tags p c = Except.ok emptyTags) ∧
    (∀ c, classify p = .unsupported → get_cover_bytes p c = Except.ok none) := by
  have hkinds : classify p = .unsupported →
      get_audio_kind p ≠ "mp3" ∧ get_audio_kind p ≠ "flac" ∧
      get_audio_kind p ≠ "ogg" ∧ get_audio_kind p ≠ "m4a" := by
    intro h
    refine ⟨?_, ?_, ?_, ?_⟩ <;> intro he <;> rw [classify, he] at h <;> simp at h
  refine ⟨classify_ext p, ?_, ?_, ?_, ?_, ?_, ?_, ?_, ?_, ?_⟩
  · intro h
    have hk : get_audio_kind p = "mp3" := by
      rw [get_audio_kind_of_suffix p _ h]
      decide
    simp [classify, hk]
  · intro h
    have hk : get_audio_kind p = "flac" := by
      rw [get_audio_kind_of_suffix p _ h]
      decide
    simp [classify, hk]
  · intro h
    have hk : get_audio_kind p = "ogg" := by
      rw [get_audio_kind_of_suffix p _ h]
      decide
    simp [classify, hk]
  · intro h
    have hk : get_audio_kind p = "m4a" := by
      rw [get_audio_kind_of_suffix p _ h]
      decide
    simp [classify, hk]
  · intro hnot
    have hn1 : lowerStr (pathSuffix p) ≠ ".mp3" := fun he => hnot (by rw [he]; decide)
    have hn2 : lowerStr (pathSuffix p) ≠ ".flac" := fun he => hnot (by rw [he]; decide)
    have hn3 : lowerStr (pathSuffix p) ≠ ".ogg" := fun he => hnot (by rw [he]; decide)
    have hn4 : lowerStr (pathSuffix p) ≠ ".m4a" := fun he => hnot (by rw [he]; decide)
    by_cases h1 : get_audio_kind p = "mp3"
    · exfalso
      apply hn1
      rw [lowerSuffix_of_kind p "mp3".data (h1.trans (by decide)) (by decide)]
    by_cases h2 : get_audio_kind p = "flac"
    · exfalso
      apply hn2
      rw [lowerSuffix_of_kind p "flac".data (h2.trans (by decide)) (by decide)]
    by_cases h3 : get_audio_kind p = "ogg"
    · exfalso
      apply hn3
      rw [lowerSuffix_of_kind p "ogg".data (h3.trans (by decide)) (by decide)]
    by_cases h4 : get_audio_kind p = "m4a"
    · exfalso
      apply hn4
      rw [lowerSuffix_of_kind p "m4a".data (h4.trans (by decide)) (by decide)]
    simp [classify, h1, h2, h3, h4]
  · intro T c h
    obtain ⟨h1, h2, h3, h4⟩ := hkinds h
    rw [set_tags.eq_def]
    simp [h1, h2, h3, h4]
  · intro d m c h
    obtain ⟨h1, h2, h3, h4⟩ := hkinds h
    rw [set_cover_bytes.eq_def]
    simp [h1, h2, h3, h4]
  · intro c h
    obtain ⟨h1, h2, h3, h4⟩ := hkinds h
    rw [get_tags.eq_def]
    simp [h1, h2, h3, h4]
  · intro c h
    obtain ⟨h1, h2, h3, h4⟩ := hkinds h
    rw [get_cover_bytes.eq_def]
    simp [h1, h2, h3, h4]

/-- C8 (witness): classification and fail-fast at concrete inputs through
the amended theorem. -/
theorem c8_classification_witness :
    classify "A.MP3" = ContainerKind.frameTagged ∧
    classify "x.wav" = ContainerKind.unsupported ∧
    set_tags "x.wav" emptyTags Content.malformed =
      Except.error "Formato no soportado para escribir tags." ∧
    get_tags "x.wav" Content.malformed = Except.ok emptyTags :=
  ⟨(c8_classification "A.MP3").2.1 (by decide),
   (c8_classification "x.wav").2.2.2.2.2.1 (by decide),
   (c8_classification "x.wav").2.2.2.2.2.2.1 emptyTags Content.malformed
     ((c8_classification "x.wav").2.2.2.2.2.1 (by decide)),
   (c8_classification "x.wav").2.2.2.2.2.2.2.2.1 Content.malformed
     ((c8_classification "x.wav").2.2.2.2.2.1 (by decide))⟩

/-- C4: at-most-one cover.  For every supported kind, a successful
`set_cover_bytes` leaves exactly one front-cover entry in the container,
holding the newly written bytes; writing twice with different images leaves
exactly one entry, equal to the second image. -/
theorem c4_at_most_one_cover (p : String) (data data2 : Bytes)
    (mime mime2 : String) (c : Content)
    (hok : bytesOK data) (hdata : data.length < 2 ^ 32)
    (hmime : mime.length < 2 ^ 28)
    (hok2 : bytesOK data2) (hdata2 : data2.length < 2 ^ 32)
    (hmime2 : mime2.length < 2 ^ 28)
    (hkc : (get_audio_kind p = "mp3" ∧ ∃ ot, c = .mp3 ot) ∨
      (get_audio_kind p = "flac" ∧ ∃ tg pics, c = .flac tg pics) ∨
      (get_audio_kind p = "ogg" ∧ ∃ tg, c = .ogg tg) ∨
      (get_audio_kind p = "m4a" ∧ ∃ tg, c = .m4a tg)) :
    ∃ c2 c3, set_cover_bytes p data mime c = Except.ok c2 ∧
      coverEntries p c2 = [some data] ∧
      set_cover_bytes p data2 mime2 c2 = Except.ok c3 ∧
      coverEntries p c3 = [some data2] := by
  rcases hkc with ⟨h, ot, rfl⟩ | ⟨h, tg, pics, rfl⟩ | ⟨h, tg, rfl⟩ | ⟨h, tg, rfl⟩
  · refine ⟨_, _, set_cover_mp3 p data mime ot h,
      coverEntries_mp3_after p data mime ot h _ (set_cover_mp3 p data mime ot h),
      set_cover_mp3 p data2 mime2 _ h,
      coverEntries_mp3_after p data2 mime2 _ h _ (set_cover_mp3 p data2 mime2 _ h)⟩
  · refine ⟨_, _, set_cover_flac p data mime tg pics h,
      coverEntries_flac_after p data mime tg pics h _ (set_cover_flac p data mime tg pics h),
      set_cover_flac p data2 mime2 tg [mkPic mime data] h,
      coverEntries_flac_after p data2 mime2 tg [mkPic mime data] h _
        (set_cover_flac p data2 mime2 tg [mkPic mime data] h)⟩
  · refine ⟨_, _, set_cover_ogg p data mime tg h,
      coverEntries_ogg_after p data mime tg h hok hdata hmime _ (set_cover_ogg p data mime tg h),
      set_cover_ogg p data2 mime2 _ h,
      coverEntries_ogg_after p data2 mime2 _ h hok2 hdata2 hmime2 _ (set_cover_ogg p data2 mime2 _ h)⟩
  · refine ⟨_, _, set_cover_m4a p data mime tg h,
      coverEntries_m4a_after p data mime tg h _ (set_cover_m4a p data mime tg h),
      set_cover_m4a p data2 mime2 _ h,
      coverEntries_m4a_after p data2 mime2 _ h _ (set_cover_m4a p data2 mime2 _ h)⟩

/-- C4 (witness): two successive Ogg cover writes leave exactly one stored
entry, the second image. -/
theorem c4_at_most_one_cover_witness :
    ∃ c2 c3, set_cover_bytes "w.ogg" [1, 2] "image/jpeg" (.ogg (some [])) =
        Except.ok c2 ∧
      coverEntries "w.ogg" c2 = [some [1, 2]] ∧
      set_cover_bytes "w.ogg" [3, 4, 5] "image/png" c2 = Except.ok c3 ∧
      coverEntries "w.ogg" c3 = [some [3, 4, 5]] :=
  c4_at_most_one_cover "w.ogg" [1, 2] [3, 4, 5] "image/jpeg" "image/png"
    (.ogg (some [])) (by decide) (by decide) (by decide) (by decide)
    (by decide) (by decide)
    (Or.inr (Or.inr (Or.inl ⟨by decide, some [], rfl⟩)))

/-- C5: cover copy is read-then-write.  When the source has no embedded
cover, the copy performs no write: the destination state is returned
untouched together with the nothing-to-copy outcome.  When the source has a
cover, the copy succeeds and the destination's cover bytes afterward equal
the source's bytes bit-for-bit. -/
theorem c5_copy_cover (src dst : String) (cs cd : Content) :
    (get_cover_bytes src cs = Except.ok none →
      copy_cover_left_to_right src dst cs cd = Except.ok (cd, .noCover)) ∧
    (∀ b m, get_cover_bytes src cs = Except.ok (some (b, m)) →
      bytesOK b → b.length < 2 ^ 32 → m.length < 2 ^ 28 →
      ((get_audio_kind dst = "mp3" ∧ ∃ ot, cd = .mp3 ot) ∨
        (get_audio_kind dst = "flac" ∧ ∃ tg pics, cd = .flac tg pics) ∨
        (get_audio_kind dst = "ogg" ∧ ∃ tg, cd = .ogg tg) ∨
        (get_audio_kind dst = "m4a" ∧ ∃ tg, cd = .m4a tg)) →
      ∃ cd2 m2,
        copy_cover_left_to_right src dst cs cd = Except.ok (cd2, .copied) ∧
        get_cover_bytes dst cd2 = Except.ok (some (b, m2))) := by
  constructor
  · intro hnone
    rw [copy_cover_left_to_right, hnone]
  · intro b m hcov hokb hlenb hlenm hkc
    rcases hkc with ⟨h, ot, rfl⟩ | ⟨h, tg, pics, rfl⟩ | ⟨h, tg, rfl⟩ | ⟨h, tg, rfl⟩
    · have hafter := mp3_cover_after_set dst b m ot h
      rw [set_cover_mp3 dst b m ot h, ok_bind] at hafter
      refine ⟨_, mimeOr m b, ?_, hafter⟩
      rw [copy_cover_left_to_right, hcov]
      simp [set_cover_mp3 dst b m ot h]
    · have hafter := flac_cover_after_set dst b m tg pics h
      rw [set_cover_flac dst b m tg pics h, ok_bind] at hafter
      refine ⟨_, mimeOr m b, ?_, hafter⟩
      rw [copy_cover_left_to_right, hcov]
      simp [set_cover_flac dst b m tg pics h]
    · have hafter := ogg_cover_after_set dst b m tg h hokb hlenb hlenm
      rw [set_cover_ogg dst b m tg h, ok_bind] at hafter
      refine ⟨_, mimeOr m b, ?_, hafter⟩
      rw [copy_cover_left_to_right, hcov]
      simp [set_cover_ogg dst b m tg h]
    · have hafter := m4a_cover_after_set dst b m tg h
      rw [set_cover_m4a dst b m tg h, ok_bind] at hafter
      refine ⟨_, if strEndsWith (lowerStr m) "png" then "image/png" else "image/jpeg",
        ?_, hafter⟩
      rw [copy_cover_left_to_right, hcov]
      simp [set_cover_m4a dst b m tg h]

/-- C5 (witness): copying from a cover-less source leaves a concrete FLAC
destination untouched, and copying a concrete JPEG from MP3 to FLAC makes
the destination's cover equal the source's bytes. -/
theorem c5_copy_cover_witness :
    copy_cover_left_to_right "s.mp3" "d.flac" (.mp3 none)
        (.flac none [mkPic "image/png" [7]]) =
      Except.ok ((.flac none [mkPic "image/png" [7]]), .noCover) ∧
    ∃ cd2 m2,
      copy_cover_left_to_right "s.mp3" "d.flac"
          (.mp3 (some ⟨[], [⟨"image/jpeg", "Cover", 3, [0xFF, 0xD8, 0xFF, 1]⟩]⟩))
          (.flac none []) = Except.ok (cd2, .copied) ∧
      get_cover_bytes "d.flac" cd2 =
        Except.ok (some ([0xFF, 0xD8, 0xFF, 1], m2)) := by
  constructor
  · exact (c5_copy_cover "s.mp3" "d.flac" (.mp3 none)
      (.flac none [mkPic "image/png" [7]])).1 (by decide)
  · exact (c5_copy_cover "s.mp3" "d.flac"
      (.mp3 (some ⟨[], [⟨"image/jpeg", "Cover", 3, [0xFF, 0xD8, 0xFF, 1]⟩]⟩))
      (.flac none [])).2 [0xFF, 0xD8, 0xFF, 1] "image/jpeg" (by decide)
      (by decide) (by decide) (by decide)
      (Or.inr (Or.inl ⟨by decide, none, [], rfl⟩))

/-- C6 (counterexample): the Ogg cover round trip does not return
`sniffMime(bytes)` when a non-empty MIME argument is supplied.  Writing
JPEG-signature bytes with the explicit MIME `"image/png"` reads back MIME
`"image/png"`, while the sniffer says `"image/jpeg"`. -/
theorem c6_counterexample :
    (set_cover_bytes "c.ogg" [0xFF, 0xD8, 0xFF, 0] "image/png"
        (.ogg (some []))).bind (get_cover_bytes "c.ogg") =
      Except.ok (some ([0xFF, 0xD8, 0xFF, 0], "image/png")) ∧
    guess_mime_from_bytes [0xFF, 0xD8, 0xFF, 0] = "image/jpeg" ∧
    ("image/png" : String) ≠ "image/jpeg" := by
  refine ⟨?_, by decide, by decide⟩
  have := ogg_cover_after_set "c.ogg" [0xFF, 0xD8, 0xFF, 0] "image/png"
    (some []) (by decide) (by decide) (by decide) (by decide)
  rw [this]
  decide

/-- C6 (amended): Ogg cover encoding and round trip.  The cover is stored
under the upper-case spelling `METADATA_BLOCK_PICTURE` — the sole entry
left under any case-variant of the key (the lower-case spelling is
cleared) — as the base64 encoding of the FLAC picture-block serialization
with picture type 3 (front cover); reading back returns the written bytes
and the recorded MIME — the argument when non-empty, the sniffed MIME
otherwise. -/
theorem c6_ogg_cover (p : String) (tg : Option VDict) (data : Bytes)
    (mime : String) (hk : get_audio_kind p = "ogg") (hok : bytesOK data)
    (hdata : data.length < 2 ^ 32) (hmime : mime.length < 2 ^ 28) :
    ∃ tgs2,
      set_cover_bytes p data mime (.ogg tg) = Except.ok (.ogg (some tgs2)) ∧
      dGet tgs2 "METADATA_BLOCK_PICTURE" =
        some (b64encodeS (picWrite ⟨3, mimeOr mime data, "Cover", 0, 0, 0, 0, data⟩)) ∧
      dGet tgs2 "metadata_block_picture" = none ∧
      vGetAll tgs2 "metadata_block_picture" =
        [b64encodeS (picWrite ⟨3, mimeOr mime data, "Cover", 0, 0, 0, 0, data⟩)] ∧
      (set_cover_bytes p data mime (.ogg tg)).bind (get_cover_bytes p) =
        Except.ok (some (data, mimeOr mime data)) := by
  refine ⟨_, set_cover_ogg p data mime tg hk, ?_, ?_, ?_,
    ogg_cover_after_set p data mime tg hk hok hdata hmime⟩
  · exact dGet_oggSetCover_self _ _
  · exact dGet_oggSetCover_low _ _
  · exact vGetAll_oggSetCover _ _ _ (by decide)

/-- C6 (witness): the amended theorem at a concrete Ogg write with an empty
MIME argument, where the recorded MIME is the sniffed one. -/
theorem c6_ogg_cover_witness :
    ∃ tgs2,
      set_cover_bytes "z.ogg" [9, 9] "" (.ogg (some [("title", "x")])) =
        Except.ok (.ogg (some tgs2)) ∧
      dGet tgs2 "METADATA_BLOCK_PICTURE" =
        some (b64encodeS (picWrite ⟨3, mimeOr "" [9, 9], "Cover", 0, 0, 0, 0, [9, 9]⟩)) ∧
      dGet tgs2 "metadata_block_picture" = none ∧
      vGetAll tgs2 "metadata_block_picture" =
        [b64encodeS (picWrite ⟨3, mimeOr "" [9, 9], "Cover", 0, 0, 0, 0, [9, 9]⟩)] ∧
      (set_cover_bytes "z.ogg" [9, 9] "" (.ogg (some [("title", "x")]))).bind
          (get_cover_bytes "z.ogg") =
        Except.ok (some ([9, 9], mimeOr "" [9, 9])) :=
  c6_ogg_cover "z.ogg" (some [("title", "x")]) [9, 9] "" (by decide)
    (by decide) (by decide) (by decide)

end DualAudio
